import Mathlib

/-!
# findup: searching a file in the current directory and its ancestors

A shallow embedding of `main.go` (functions `searchFile`, `errorAndExit`, `main`)
together with a model of the parts of the Go standard library the program calls
(`path/filepath` on Unix, `fmt` verbs `%v %s %w`, `os.Stat`, `os.Exit`).

Go strings are Lean `String`s; a Go `error` value is a `GoError`, `nil` is `none`.
The loop `for { ... }` of `searchFile` is a function with a fuel argument that counts
loop iterations: one unit of fuel is consumed at the head of every iteration, and
`none` means that the loop did not finish within the given number of iterations.
-/

namespace Findup

/-! ## Go values -/

/-- Go `error` values as the program builds them: `fmt.Errorf` without `%w` gives a
plain message, `fmt.Errorf` with `%w` gives a message that wraps its operand. -/
inductive GoError where
  | errorString (s : String)
  | wrapError (msg : String) (err : GoError)
  deriving DecidableEq, Repr

/-- The method `Error()` of a Go error: its message. -/
def GoError.Error : GoError → String
  | .errorString s => s
  | .wrapError msg _ => msg

/-- The method `Unwrap()` (as used by `errors.Unwrap`): the wrapped error, if any. -/
def GoError.Unwrap : GoError → Option GoError
  | .errorString _ => none
  | .wrapError _ err => some err

/-- An operand of a `fmt` call (`...any`): the program passes strings and errors only. -/
inductive Operand where
  | str (s : String)
  | err (e : GoError)
  deriving DecidableEq, Repr

/-- How `%v`, `%s` and `%w` print an operand. -/
def Operand.text : Operand → List Char
  | .str s => s.data
  | .err e => e.Error.data

/-- The verbs of `fmt` the program uses. -/
def isVerb (c : Char) : Bool := c = 'v' || c = 's' || c = 'w'

/-- Formatting of `fmt.Sprintf` on characters, for the verbs `%v`, `%s`, `%w` and `%%`.
Every other character is copied. (A verb without operand is copied too; the program
never formats one.) -/
def formatChars : List Char → List Operand → List Char
  | [], _ => []
  | [c], _ => [c]
  | c :: d :: rest, ops =>
    if c = '%' then
      if d = '%' then '%' :: formatChars rest ops
      else if isVerb d then
        match ops with
        | [] => c :: formatChars (d :: rest) ops
        | o :: ops' => o.text ++ formatChars rest ops'
      else c :: formatChars (d :: rest) ops
    else c :: formatChars (d :: rest) ops

/-- Model of `fmt.Sprintf`. -/
def Sprintf (format : String) (ops : List Operand) : String :=
  ⟨formatChars format.data ops⟩

/-- The operand of the first `%w` verb of a format, when it is an error. -/
def wrappedOperand : List Char → List Operand → Option GoError
  | [], _ => none
  | [_], _ => none
  | c :: d :: rest, ops =>
    if c = '%' then
      if d = '%' then wrappedOperand rest ops
      else if isVerb d then
        match ops with
        | [] => none
        | o :: ops' =>
          if d = 'w' then
            match o with
            | .err e => some e
            | .str _ => none
          else wrappedOperand rest ops'
      else wrappedOperand (d :: rest) ops
    else wrappedOperand (d :: rest) ops

/-- Model of `fmt.Errorf`: the message is the formatted text; with a `%w` verb the
result wraps the operand of that verb. -/
def Errorf (format : String) (ops : List Operand) : GoError :=
  match wrappedOperand format.data ops with
  | some e => .wrapError (Sprintf format ops) e
  | none => .errorString (Sprintf format ops)

/-! ## The platform: `path/filepath` and `os.Stat` -/

/-- The library functions `searchFile` calls. `Abs` is `filepath.Abs`, `Join` is
`filepath.Join` with two elements, `Dir` is `filepath.Dir`, and `Stat p` is the
error returned by `os.Stat(p)` (`none` for `nil`: the path exists). -/
structure Platform where
  Abs : String → Except GoError String
  Join : String → String → String
  Dir : String → String
  Stat : String → Option GoError

/-- The test `_, err := os.Stat(p); err == nil`. -/
def Platform.statOk (P : Platform) (p : String) : Bool := (P.Stat p).isNone

/-! ## `searchFile` -/

/-- What a call of `searchFile` does: the two returned values, the arguments it passed
to `filepath.Abs` (in order) and the paths it passed to `os.Stat` (in order). -/
structure Outcome where
  path : String
  err : Option GoError
  resolved : List String
  probes : List String
  deriving DecidableEq, Repr

/-- The statement `return "", fmt.Errorf("file not found")` that follows the loop. -/
def notFound : Outcome :=
  { path := "", err := some (Errorf "file not found" []), resolved := [], probes := [] }

/-- Records existence checks made before the rest of the run. -/
def Outcome.afterProbes (ps : List String) (o : Outcome) : Outcome :=
  { o with probes := ps ++ o.probes }

/-- Records path resolutions made before the rest of the run. -/
def Outcome.afterResolved (rs : List String) (o : Outcome) : Outcome :=
  { o with resolved := rs ++ o.resolved }

/-- The loop of `searchFile` followed by the final `return`, started with `currentDir`.
The first argument is the number of iterations the loop may still begin. -/
def searchLoop (P : Platform) (targetFile flagFile stopDirAbs : String) :
    Nat → String → Option Outcome
  | 0, _ => none
  | fuel + 1, currentDir =>
    -- Check if we've reached the stop directory
    if stopDirAbs ≠ "" ∧ currentDir = stopDirAbs then
      some notFound
    else
      -- Check if the target file exists in the current directory
      let targetPath := P.Join currentDir targetFile
      if P.statOk targetPath then
        some { path := targetPath, err := none, resolved := [], probes := [targetPath] }
      else
        -- Check if the flag file or directory exists in the current directory
        let flagFilePath := P.Join currentDir flagFile
        let checked := if flagFile ≠ "" then [targetPath, flagFilePath] else [targetPath]
        if flagFile ≠ "" ∧ P.statOk flagFilePath then
          some (notFound.afterProbes checked)
        else
          -- Get the parent directory
          let parentDir := P.Dir currentDir
          if parentDir = currentDir then
            some (notFound.afterProbes checked)
          else
            (searchLoop P targetFile flagFile stopDirAbs fuel parentDir).map
              (Outcome.afterProbes checked)

/-- The function `searchFile` of `main.go`; `fuel` bounds the iterations of its loop. -/
def searchFile (P : Platform) (fuel : Nat) (startDir targetFile flagFile stopDir : String) :
    Option Outcome :=
  match P.Abs startDir with
  | .error err =>
    some { path := "",
           err := some (Errorf "failed to get absolute path of start directory: %w" [.err err]),
           resolved := [startDir], probes := [] }
  | .ok currentDir =>
    if stopDir ≠ "" then
      match P.Abs stopDir with
      | .error err =>
        some { path := "",
               err := some (Errorf "failed to get absolute path of stop directory: %w" [.err err]),
               resolved := [startDir, stopDir], probes := [] }
      | .ok stopDirAbs =>
        (searchLoop P targetFile flagFile stopDirAbs fuel currentDir).map
          (Outcome.afterResolved [startDir, stopDir])
    else
      (searchLoop P targetFile flagFile "" fuel currentDir).map
        (Outcome.afterResolved [startDir])

/-- The ancestor chain: `chain P d 0 = d` and `chain P d (i+1) = Dir (chain P d i)`. -/
def chain (P : Platform) (d : String) : Nat → String
  | 0 => d
  | i + 1 => P.Dir (chain P d i)

/-- The two values `searchFile` returns. -/
def Outcome.result (o : Outcome) : String × Option GoError := (o.path, o.err)

/-- The value of `fmt.Errorf("file not found")`. -/
def fileNotFound : GoError := .errorString "file not found"

/-- The existence checks of one full iteration of the loop at directory `d`. -/
def checkedAt (P : Platform) (targetFile flagFile d : String) : List String :=
  if flagFile ≠ "" then [P.Join d targetFile, P.Join d flagFile] else [P.Join d targetFile]

/-- The existence checks of `k` full iterations of the loop, started at `d`. -/
def walkProbes (P : Platform) (targetFile flagFile : String) : Nat → String → List String
  | 0, _ => []
  | k + 1, d => checkedAt P targetFile flagFile d ++ walkProbes P targetFile flagFile k (P.Dir d)

/-- The iteration of the loop at directory `d` reaches `currentDir = parentDir`: the stop
directory is not reached, neither the target nor the marker is there, and `d` is not
its own parent. -/
def Continues (P : Platform) (targetFile flagFile stopDirAbs d : String) : Prop :=
  ¬ (stopDirAbs ≠ "" ∧ d = stopDirAbs) ∧ P.statOk (P.Join d targetFile) = false ∧
    ¬ (flagFile ≠ "" ∧ P.statOk (P.Join d flagFile) = true) ∧ P.Dir d ≠ d

/-! ## `path/filepath` on Unix -/

/-- Model of `strings.Split(s, "/")` on characters. -/
def splitSlash : List Char → List (List Char)
  | [] => [[]]
  | c :: cs =>
    if c = '/' then [] :: splitSlash cs
    else
      match splitSlash cs with
      | [] => [[c]]
      | e :: es => (c :: e) :: es

/-- Model of `strings.Join(es, "/")` on characters. -/
def joinSlash : List (List Char) → List Char
  | [] => []
  | [e] => e
  | e :: es => e ++ '/' :: joinSlash es

/-- One element of a path read by `filepath.Clean`; `stack` holds the elements written
so far, the last one first. An empty element and `.` are skipped, `..` removes the
element before it, is dropped at the root, and is kept at the start of a relative path. -/
def cleanStep (rooted : Bool) (stack : List (List Char)) (e : List Char) : List (List Char) :=
  if e = [] ∨ e = ['.'] then stack
  else if e = ['.', '.'] then
    match stack with
    | [] => if rooted then [] else [e]
    | top :: below => if top = ['.', '.'] then e :: stack else below
  else e :: stack

/-- The elements of the cleaned path, in order. -/
def cleanElems (rooted : Bool) (es : List (List Char)) : List (List Char) :=
  (es.foldl (cleanStep rooted) []).reverse

/-- Model of `filepath.Clean` on characters (Unix: separator `/`, no volume name). -/
def cleanChars (path : List Char) : List Char :=
  let rooted : Bool := path.head? = some '/'
  let body := joinSlash (cleanElems rooted (splitSlash path))
  if rooted then '/' :: body else if body = [] then ['.'] else body

/-- Model of `filepath.Clean`. -/
def Clean (path : String) : String := ⟨cleanChars path.data⟩

/-- Model of `filepath.IsAbs` on Unix: the path starts with a slash. -/
def IsAbs (path : String) : Bool := path.data.head? = some '/'

/-- Model of `filepath.Join` with two elements: empty elements are ignored, the rest is
joined with slashes and cleaned; the result is empty when both elements are. -/
def Join (a b : String) : String :=
  if a ≠ "" then Clean ⟨a.data ++ '/' :: b.data⟩
  else if b ≠ "" then Clean b
  else ""

/-- The part of a path up to and including its last slash (`path[:i+1]` in `filepath.Dir`). -/
def dirPrefix (path : List Char) : List Char :=
  (path.reverse.dropWhile (fun c => c ≠ '/')).reverse

/-- Model of `filepath.Dir` on Unix. -/
def Dir (path : String) : String := Clean ⟨dirPrefix path.data⟩

/-- Model of `filepath.Abs` on Unix; `getwd` is the result of `os.Getwd()`. -/
def Abs (getwd : Except GoError String) (path : String) : Except GoError String :=
  if IsAbs path then .ok (Clean path)
  else
    match getwd with
    | .error err => .error err
    | .ok wd => .ok (Join wd path)

/-- The Unix platform with working directory `getwd` and filesystem oracle `stat`. -/
def unix (getwd : Except GoError String) (stat : String → Option GoError) : Platform :=
  { Abs := Abs getwd, Join := Join, Dir := Dir, Stat := stat }

/-- The number of path components below the root. -/
def depth (path : String) : Nat :=
  ((splitSlash path.data).filter (fun e => e ≠ [])).length

/-- A name that `filepath.Clean` keeps in a rooted path: not empty, not `.`, not `..`,
and without a slash. -/
def NormalElem (e : List Char) : Prop :=
  e ≠ [] ∧ e ≠ ['.'] ∧ e ≠ ['.', '.'] ∧ '/' ∉ e

/-- The absolute path with the given components below the root: `/c1/c2/.../cn`. -/
def rootedPath (cs : List (List Char)) : String := ⟨'/' :: joinSlash cs⟩

/-- A filesystem oracle in which exactly the listed paths exist. -/
def fsOf (paths : List String) (p : String) : Option GoError :=
  if p ∈ paths then none else some (.errorString "no such file or directory")

/-- A filesystem oracle in which the listed paths exist and the check of any other path
fails with a permission error. -/
def fsDenied (paths : List String) (p : String) : Option GoError :=
  if p ∈ paths then none else some (.errorString "permission denied")

/-! ## `main` -/

/-- The struct `Options`, filled by `flag.Parse()`. -/
structure Options where
  flagFile : String
  startDirectory : String
  stopDirectory : String
  help : Bool
  quiet : Bool
  deriving DecidableEq, Repr

/-- What the process has written so far. -/
structure Streams where
  stdout : String
  stderr : String
  deriving DecidableEq, Repr

/-- A point of the run of the process: it has called `os.Exit(code)`, or it goes on. -/
inductive Run where
  | exited (code : Nat) (s : Streams)
  | running (s : Streams)
  deriving DecidableEq, Repr

/-- Sequencing: nothing runs after `os.Exit`. -/
def Run.andThen (r : Run) (k : Streams → Run) : Run :=
  match r with
  | .exited code s => .exited code s
  | .running s => k s

/-- The exit status of the process; returning from `main` is status 0. -/
def Run.status : Run → Nat
  | .exited code _ => code
  | .running _ => 0

/-- The streams of the process at its end. -/
def Run.streams : Run → Streams
  | .exited _ s => s
  | .running s => s

/-- Model of `fmt.Fprintf(os.Stdout, ...)` and `fmt.Printf`. -/
def printStdout (format : String) (ops : List Operand) (s : Streams) : Streams :=
  { s with stdout := s.stdout ++ Sprintf format ops }

/-- Model of `fmt.Fprintf(os.Stderr, ...)`. -/
def printStderr (format : String) (ops : List Operand) (s : Streams) : Streams :=
  { s with stderr := s.stderr ++ Sprintf format ops }

/-- The function `Usage` writing to standard output; `argv0` is `os.Args[0]` and
`flagUsages` is the text of `flag.CommandLine.FlagUsages()`. -/
def UsageStdout (argv0 flagUsages : String) (s : Streams) : Streams :=
  printStdout "\nOptions:\n\n%s\n" [.str flagUsages]
    (printStdout "%s: usage: %s [options] filename\n" [.str argv0, .str argv0] s)

/-- The function `errorAndExit` of `main.go`. -/
def errorAndExit (options : Options) (msg : String) (params : List Operand) (s : Streams) : Run :=
  let s1 := if !options.quiet then printStderr msg params (printStderr "ERROR: " [] s) else s
  .exited 1 s1

/-- The function `main` of `main.go` after `flag.Parse()` has filled `options` and left
the positional arguments `args`. -/
def main (P : Platform) (fuel : Nat) (argv0 flagUsages : String) (options : Options)
    (args : List String) : Option Run :=
  let s0 : Streams := { stdout := "", stderr := "" }
  if options.help then
    some (.exited 0 (UsageStdout argv0 flagUsages s0))
  else
    let r1 : Run :=
      if args.length ≠ 1 then
        (errorAndExit options "Missing target file name" [] s0).andThen (fun s => .exited 2 s)
      else .running s0
    match r1 with
    | .exited code s => some (.exited code s)
    | .running s1 =>
      let targetFile := args.headD ""
      match searchFile P fuel options.startDirectory targetFile options.flagFile
          options.stopDirectory with
      | none => none
      | some o =>
        let r2 : Run :=
          match o.err with
          | some err => errorAndExit options "%v\n" [.err err] s1
          | none => .running s1
        some (r2.andThen (fun s => .running (printStdout "%s\n" [.str o.path] s)))

/-! ## Notions used by the claims -/

/-- The platform `P` with another filesystem oracle. -/
def Platform.withStat (P : Platform) (stat : String → Option GoError) : Platform :=
  { Abs := P.Abs, Join := P.Join, Dir := P.Dir, Stat := stat }

/-- The existence checks at a directory the loop examines: one check of the target,
followed by one check of the marker only when a marker is given and the target check
failed. -/
def probeBlock (P : Platform) (targetFile flagFile d : String) : List String :=
  if P.statOk (P.Join d targetFile) then [P.Join d targetFile]
  else if flagFile ≠ "" then [P.Join d targetFile, P.Join d flagFile]
  else [P.Join d targetFile]

/-- The existence checks at the first `m` directories of the ancestor chain of `d0`, child
before parent. -/
def probesOfPrefix (P : Platform) (targetFile flagFile d0 : String) (m : Nat) : List String :=
  ((List.range m).map (fun i => probeBlock P targetFile flagFile (chain P d0 i))).flatten

/-- The path components of a path: the non-empty names between its slashes. -/
def components (path : String) : List (List Char) :=
  (splitSlash path.data).filter (fun e => e ≠ [])

/-- The invariant of the search state: `d` is an absolute path, it is cleaned, and it is
the start directory `d0` or one of its ancestors (its components are the first components
of `d0`). -/
def LoopInv (d0 d : String) : Prop :=
  IsAbs d = true ∧ Clean d = d ∧ components d <+: components d0

/-! ## The locator as a scan of the ancestor sequence

The definitions of this section are written from the words of the specification, not from
the code: they are the reference the loop is compared with. -/

/-- Reference definition: the ancestor sequence `d, Dir d, ..., Dir^n d`. -/
def specAncestors (P : Platform) : Nat → String → List String
  | 0, d => [d]
  | n + 1, d => d :: specAncestors P n (P.Dir d)

/-- Reference definition: the sequence cut just before its first directory equal to the
resolved stop directory, if one is set. -/
def specCut (stop : Option String) (ds : List String) : List String :=
  match stop with
  | none => ds
  | some s => ds.takeWhile (fun d => d ≠ s)

/-- Reference definition: scan the directories in order; return `Join d targetFile` at the
first `d` where it exists, fail with "file not found" at the first `d` where the target
is absent and a non-empty marker exists, or when the sequence is exhausted. -/
def specScan (P : Platform) (targetFile flagFile : String) : List String → String × Option GoError
  | [] => ("", some fileNotFound)
  | d :: ds =>
    if P.statOk (P.Join d targetFile) then (P.Join d targetFile, none)
    else if flagFile ≠ "" ∧ P.statOk (P.Join d flagFile) then ("", some fileNotFound)
    else specScan P targetFile flagFile ds

/-- Reference definition of the locator on Unix for resolved paths: the ancestors of the
absolute path `d0` up to the root, cut at the stop directory, then scanned. -/
def specLocate (getwd : Except GoError String) (stat : String → Option GoError)
    (d0 targetFile flagFile : String) (stop : Option String) : String × Option GoError :=
  specScan (unix getwd stat) targetFile flagFile
    (specCut stop (specAncestors (unix getwd stat) (depth d0) d0))

/-! ## The loop, step by step -/

theorem chain_succ_left (P : Platform) (d : String) (i : Nat) :
    chain P d (i + 1) = chain P (P.Dir d) i := by
  induction i with
  | zero => rfl
  | succ i ih => simp only [chain] at ih ⊢; rw [ih]

theorem chain_fixed (P : Platform) (d : String) (i : Nat)
    (h : P.Dir (chain P d i) = chain P d i) : ∀ j, i ≤ j → chain P d j = chain P d i := by
  intro j hj
  induction j with
  | zero =>
    have : i = 0 := by omega
    subst this; rfl
  | succ j ih =>
    by_cases hij : i = j + 1
    · subst hij; rfl
    · have hle : i ≤ j := by omega
      simp only [chain]
      rw [ih hle, h]

theorem searchLoop_zero (P : Platform) (t f s d : String) : searchLoop P t f s 0 d = none := rfl

theorem searchLoop_stop (P : Platform) (t f s d : String) (n : Nat)
    (h : s ≠ "" ∧ d = s) : searchLoop P t f s (n + 1) d = some notFound := by
  simp only [searchLoop, if_pos h]

theorem searchLoop_found (P : Platform) (t f s d : String) (n : Nat)
    (hs : ¬ (s ≠ "" ∧ d = s)) (h : P.statOk (P.Join d t) = true) :
    searchLoop P t f s (n + 1) d =
      some { path := P.Join d t, err := none, resolved := [], probes := [P.Join d t] } := by
  simp only [searchLoop, if_neg hs, h, if_true]

theorem searchLoop_marker (P : Platform) (t f s d : String) (n : Nat)
    (hs : ¬ (s ≠ "" ∧ d = s)) (ht : P.statOk (P.Join d t) = false)
    (h : f ≠ "" ∧ P.statOk (P.Join d f) = true) :
    searchLoop P t f s (n + 1) d = some (notFound.afterProbes (checkedAt P t f d)) := by
  simp only [searchLoop, if_neg hs, ht, if_pos h, checkedAt]
  simp

theorem searchLoop_root (P : Platform) (t f s d : String) (n : Nat)
    (hs : ¬ (s ≠ "" ∧ d = s)) (ht : P.statOk (P.Join d t) = false)
    (hf : ¬ (f ≠ "" ∧ P.statOk (P.Join d f) = true)) (h : P.Dir d = d) :
    searchLoop P t f s (n + 1) d = some (notFound.afterProbes (checkedAt P t f d)) := by
  simp only [searchLoop, if_neg hs, ht, if_neg hf, h, checkedAt]
  simp

theorem searchLoop_continue (P : Platform) (t f s d : String) (n : Nat)
    (h : Continues P t f s d) :
    searchLoop P t f s (n + 1) d =
      (searchLoop P t f s n (P.Dir d)).map (Outcome.afterProbes (checkedAt P t f d)) := by
  obtain ⟨hs, ht, hf, hd⟩ := h
  simp only [searchLoop, if_neg hs, ht, if_neg hf, if_neg hd, checkedAt]
  simp

theorem errorf_file_not_found : Errorf "file not found" [] = fileNotFound := by decide

theorem notFound_result : notFound.result = ("", some fileNotFound) := by
  simp only [notFound, Outcome.result, errorf_file_not_found]

theorem afterProbes_nil (o : Outcome) : o.afterProbes [] = o := by
  cases o; simp [Outcome.afterProbes]

theorem afterProbes_afterProbes (a b : List String) (o : Outcome) :
    (o.afterProbes b).afterProbes a = o.afterProbes (a ++ b) := by
  cases o; simp [Outcome.afterProbes]

theorem afterProbes_result (a : List String) (o : Outcome) :
    (o.afterProbes a).result = o.result := rfl

theorem afterResolved_result (a : List String) (o : Outcome) :
    (o.afterResolved a).result = o.result := rfl

theorem afterResolved_probes (a : List String) (o : Outcome) :
    (o.afterResolved a).probes = o.probes := rfl

/-- After `k` iterations that all continue, the loop is at the `k`-th ancestor. -/
theorem searchLoop_walk (P : Platform) (t f s : String) (k n : Nat) :
    ∀ d : String, (∀ i, i < k → Continues P t f s (chain P d i)) →
      searchLoop P t f s (k + n) d =
        (searchLoop P t f s n (chain P d k)).map (Outcome.afterProbes (walkProbes P t f k d)) := by
  induction k with
  | zero =>
    intro d _
    have hid : Outcome.afterProbes (walkProbes P t f 0 d) = id := by
      funext o; simp [walkProbes, afterProbes_nil]
    simp [hid, chain]
  | succ k ih =>
    intro d h
    have h0 : Continues P t f s d := h 0 (Nat.succ_pos k)
    have hrest : ∀ i, i < k → Continues P t f s (chain P (P.Dir d) i) := by
      intro i hi
      rw [← chain_succ_left]
      exact h (i + 1) (Nat.succ_lt_succ hi)
    have hfuel : k + 1 + n = (k + n) + 1 := by omega
    rw [hfuel, searchLoop_continue P t f s d (k + n) h0, ih (P.Dir d) hrest, chain_succ_left,
      Option.map_map]
    congr 1
    funext o
    simp [Function.comp, walkProbes, afterProbes_afterProbes]

/-- Every finished run of the loop walked up `k` directories and then stopped at the
`k`-th ancestor for one of the four reasons the code has. -/
theorem searchLoop_cases (P : Platform) (t f s : String) (fuel : Nat) :
    ∀ (d : String) (o : Outcome), searchLoop P t f s fuel d = some o →
      ∃ k, k < fuel ∧ (∀ i, i < k → Continues P t f s (chain P d i)) ∧
        (((s ≠ "" ∧ chain P d k = s) ∧ o = notFound.afterProbes (walkProbes P t f k d)) ∨
         (¬ (s ≠ "" ∧ chain P d k = s) ∧ P.statOk (P.Join (chain P d k) t) = true ∧
            o = { path := P.Join (chain P d k) t, err := none, resolved := [],
                  probes := walkProbes P t f k d ++ [P.Join (chain P d k) t] }) ∨
         (¬ (s ≠ "" ∧ chain P d k = s) ∧ P.statOk (P.Join (chain P d k) t) = false ∧
            ((f ≠ "" ∧ P.statOk (P.Join (chain P d k) f) = true) ∨
              P.Dir (chain P d k) = chain P d k) ∧
            o = notFound.afterProbes (walkProbes P t f k d ++ checkedAt P t f (chain P d k)))) := by
  induction fuel with
  | zero => intro d o h; simp [searchLoop] at h
  | succ n ih =>
    intro d o h
    by_cases hs : s ≠ "" ∧ d = s
    · rw [searchLoop_stop P t f s d n hs] at h
      refine ⟨0, Nat.succ_pos n, fun i hi => absurd hi (Nat.not_lt_zero i), Or.inl ⟨hs, ?_⟩⟩
      simp only [Option.some.injEq] at h
      simp [walkProbes, afterProbes_nil, h]
    · cases ht : P.statOk (P.Join d t) with
      | true =>
        rw [searchLoop_found P t f s d n hs ht] at h
        refine ⟨0, Nat.succ_pos n, fun i hi => absurd hi (Nat.not_lt_zero i),
          Or.inr (Or.inl ⟨hs, ht, ?_⟩)⟩
        simp only [Option.some.injEq] at h
        simp [walkProbes, chain, ← h]
      | false =>
        by_cases hf : f ≠ "" ∧ P.statOk (P.Join d f) = true
        · rw [searchLoop_marker P t f s d n hs ht hf] at h
          refine ⟨0, Nat.succ_pos n, fun i hi => absurd hi (Nat.not_lt_zero i),
            Or.inr (Or.inr ⟨hs, ht, Or.inl hf, ?_⟩)⟩
          simp only [Option.some.injEq] at h
          simp [walkProbes, chain, ← h]
        · by_cases hd : P.Dir d = d
          · rw [searchLoop_root P t f s d n hs ht hf hd] at h
            refine ⟨0, Nat.succ_pos n, fun i hi => absurd hi (Nat.not_lt_zero i),
              Or.inr (Or.inr ⟨hs, ht, Or.inr hd, ?_⟩)⟩
            simp only [Option.some.injEq] at h
            simp [walkProbes, chain, ← h]
          · have hc : Continues P t f s d := ⟨hs, ht, hf, hd⟩
            rw [searchLoop_continue P t f s d n hc] at h
            obtain ⟨o1, ho1, rfl⟩ := Option.map_eq_some'.mp h
            obtain ⟨k, hk, hwalk, hend⟩ := ih (P.Dir d) o1 ho1
            refine ⟨k + 1, Nat.succ_lt_succ hk, ?_, ?_⟩
            · intro i hi
              cases i with
              | zero => exact hc
              | succ i =>
                rw [chain_succ_left]
                exact hwalk i (Nat.lt_of_succ_lt_succ hi)
            · rw [chain_succ_left]
              rcases hend with ⟨h1, rfl⟩ | ⟨h1, h2, rfl⟩ | ⟨h1, h2, h3, rfl⟩
              · exact Or.inl ⟨h1, by simp [walkProbes, afterProbes_afterProbes]⟩
              · exact Or.inr (Or.inl ⟨h1, h2, by simp [walkProbes, Outcome.afterProbes]⟩)
              · exact Or.inr (Or.inr ⟨h1, h2, h3, by
                  simp [walkProbes, afterProbes_afterProbes]⟩)

/-! ## `searchFile` in terms of its loop -/

theorem errorf_start (e : GoError) :
    Errorf "failed to get absolute path of start directory: %w" [.err e] =
      .wrapError ("failed to get absolute path of start directory: " ++ e.Error) e := by
  simp [Errorf, wrappedOperand, Sprintf, formatChars, isVerb, Operand.text]
  rfl

theorem errorf_stop (e : GoError) :
    Errorf "failed to get absolute path of stop directory: %w" [.err e] =
      .wrapError ("failed to get absolute path of stop directory: " ++ e.Error) e := by
  simp [Errorf, wrappedOperand, Sprintf, formatChars, isVerb, Operand.text]
  rfl

theorem searchFile_start_error (P : Platform) (fuel : Nat) (startDir t f stopDir : String)
    (e : GoError) (h : P.Abs startDir = .error e) :
    searchFile P fuel startDir t f stopDir =
      some { path := "",
             err := some (.wrapError
               ("failed to get absolute path of start directory: " ++ e.Error) e),
             resolved := [startDir], probes := [] } := by
  simp only [searchFile, h, errorf_start]

theorem searchFile_stop_error (P : Platform) (fuel : Nat) (startDir t f stopDir d0 : String)
    (e : GoError) (h : P.Abs startDir = .ok d0) (hne : stopDir ≠ "")
    (hs : P.Abs stopDir = .error e) :
    searchFile P fuel startDir t f stopDir =
      some { path := "",
             err := some (.wrapError
               ("failed to get absolute path of stop directory: " ++ e.Error) e),
             resolved := [startDir, stopDir], probes := [] } := by
  simp only [searchFile, h, if_pos hne, hs, errorf_stop]

theorem searchFile_no_stop (P : Platform) (fuel : Nat) (startDir t f d0 : String)
    (h : P.Abs startDir = .ok d0) :
    searchFile P fuel startDir t f "" =
      (searchLoop P t f "" fuel d0).map (Outcome.afterResolved [startDir]) := by
  simp [searchFile, h]

theorem searchFile_with_stop (P : Platform) (fuel : Nat) (startDir t f stopDir d0 s : String)
    (h : P.Abs startDir = .ok d0) (hne : stopDir ≠ "") (hs : P.Abs stopDir = .ok s) :
    searchFile P fuel startDir t f stopDir =
      (searchLoop P t f s fuel d0).map (Outcome.afterResolved [startDir, stopDir]) := by
  simp only [searchFile, h, if_pos hne, hs]

/-- The returned values of `searchFile` are those of its loop, run with the resolved stop
directory (the empty string when no stop directory is given). -/
theorem searchFile_result (P : Platform) (fuel : Nat) (startDir t f stopDir d0 : String)
    (h : P.Abs startDir = .ok d0)
    (hstop : stopDir = "" ∨ ∃ s, P.Abs stopDir = .ok s) :
    ∃ s, (stopDir = "" ∧ s = "" ∨ stopDir ≠ "" ∧ P.Abs stopDir = .ok s) ∧
      (searchFile P fuel startDir t f stopDir).map Outcome.result =
        (searchLoop P t f s fuel d0).map Outcome.result := by
  by_cases hne : stopDir = ""
  · subst hne
    refine ⟨"", Or.inl ⟨rfl, rfl⟩, ?_⟩
    rw [searchFile_no_stop P fuel startDir t f d0 h, Option.map_map]
    rfl
  · rcases hstop with h0 | ⟨s, hs⟩
    · exact absurd h0 hne
    · refine ⟨s, Or.inr ⟨hne, hs⟩, ?_⟩
      rw [searchFile_with_stop P fuel startDir t f stopDir d0 s h hne hs, Option.map_map]
      rfl

/-! ## Where the walk ends -/

/-- The loop returns the target of the `k`-th ancestor when nothing ends the walk below it. -/
theorem searchLoop_nearest (P : Platform) (t f s d : String) (k : Nat)
    (hs : ∀ i, i ≤ k → ¬ (s ≠ "" ∧ chain P d i = s))
    (hfound : P.statOk (P.Join (chain P d k) t) = true)
    (hleast : ∀ i, i < k → P.statOk (P.Join (chain P d i) t) = false)
    (hflag : f = "" ∨ ∀ i, i < k → P.statOk (P.Join (chain P d i) f) = false) :
    ∀ fuel, k < fuel →
      (searchLoop P t f s fuel d).map Outcome.result = some (P.Join (chain P d k) t, none) := by
  intro fuel hk
  have hcont : ∀ i, i < k → Continues P t f s (chain P d i) := by
    intro i hi
    refine ⟨hs i (Nat.le_of_lt hi), hleast i hi, ?_, ?_⟩
    · rintro ⟨hne, hm⟩
      rcases hflag with h0 | hno
      · exact hne h0
      · rw [hno i hi] at hm; exact Bool.false_ne_true hm
    · intro hfix
      have := chain_fixed P d i hfix k (Nat.le_of_lt hi)
      rw [this, hleast i hi] at hfound
      exact Bool.false_ne_true hfound
  obtain ⟨n, rfl⟩ : ∃ n, fuel = k + (n + 1) := ⟨fuel - k - 1, by omega⟩
  rw [searchLoop_walk P t f s k (n + 1) d hcont,
    searchLoop_found P t f s (chain P d k) n (hs k (Nat.le_refl k)) hfound]
  rfl

/-- The loop fails when a marker is met at or below the first directory with the target. -/
theorem searchLoop_marker_blocks (P : Platform) (t f s : String) (hf : f ≠ "") (k : Nat) :
    ∀ (d : String) (fuel : Nat), k < fuel →
      P.statOk (P.Join (chain P d k) f) = true →
      (∀ i, i ≤ k → P.statOk (P.Join (chain P d i) t) = false) →
      (searchLoop P t f s fuel d).map Outcome.result = some ("", some fileNotFound) := by
  induction k with
  | zero =>
    intro d fuel hk hm hno
    obtain ⟨n, rfl⟩ : ∃ n, fuel = n + 1 := ⟨fuel - 1, by omega⟩
    by_cases hs : s ≠ "" ∧ d = s
    · rw [searchLoop_stop P t f s d n hs]; simp [notFound_result]
    · rw [searchLoop_marker P t f s d n hs (hno 0 (Nat.le_refl 0)) ⟨hf, hm⟩]
      simp [afterProbes_result, notFound_result]
  | succ k ih =>
    intro d fuel hk hm hno
    obtain ⟨n, rfl⟩ : ∃ n, fuel = n + 1 := ⟨fuel - 1, by omega⟩
    have ht : P.statOk (P.Join d t) = false := hno 0 (Nat.zero_le _)
    by_cases hs : s ≠ "" ∧ d = s
    · rw [searchLoop_stop P t f s d n hs]; simp [notFound_result]
    · by_cases hfl : f ≠ "" ∧ P.statOk (P.Join d f) = true
      · rw [searchLoop_marker P t f s d n hs ht hfl]
        simp [afterProbes_result, notFound_result]
      · by_cases hd : P.Dir d = d
        · rw [searchLoop_root P t f s d n hs ht hfl hd]
          simp [afterProbes_result, notFound_result]
        · rw [searchLoop_continue P t f s d n ⟨hs, ht, hfl, hd⟩, Option.map_map]
          have hrec := ih (P.Dir d) n (by omega) (by rw [← chain_succ_left]; exact hm)
            (by
              intro i hi
              rw [← chain_succ_left]
              exact hno (i + 1) (Nat.succ_le_succ hi))
          rw [← hrec]
          cases searchLoop P t f s n (P.Dir d) <;> rfl

/-! ## Termination of the loop -/

theorem searchLoop_halt (P : Platform) (t f s d : String) (n m : Nat)
    (h : ¬ Continues P t f s d) :
    searchLoop P t f s (n + 1) d = searchLoop P t f s (m + 1) d ∧
      (searchLoop P t f s (n + 1) d).isSome = true := by
  by_cases hs : s ≠ "" ∧ d = s
  · simp [searchLoop_stop P t f s d _ hs]
  · cases ht : P.statOk (P.Join d t) with
    | true => simp [searchLoop_found P t f s d _ hs ht]
    | false =>
      by_cases hf : f ≠ "" ∧ P.statOk (P.Join d f) = true
      · simp [searchLoop_marker P t f s d _ hs ht hf]
      · by_cases hd : P.Dir d = d
        · simp [searchLoop_root P t f s d _ hs ht hf hd]
        · exact absurd ⟨hs, ht, hf, hd⟩ h

/-- More iterations allowed do not change the outcome of a finished loop. -/
theorem searchLoop_mono (P : Platform) (t f s : String) (n : Nat) :
    ∀ (d : String) (o : Outcome), searchLoop P t f s n d = some o →
      ∀ m, n ≤ m → searchLoop P t f s m d = some o := by
  induction n with
  | zero => intro d o h; simp [searchLoop] at h
  | succ n ih =>
    intro d o h m hm
    obtain ⟨m1, rfl⟩ : ∃ m1, m = m1 + 1 := ⟨m - 1, by omega⟩
    by_cases hc : Continues P t f s d
    · rw [searchLoop_continue P t f s d n hc] at h
      obtain ⟨o1, ho1, rfl⟩ := Option.map_eq_some'.mp h
      rw [searchLoop_continue P t f s d m1 hc, ih (P.Dir d) o1 ho1 m1 (by omega)]
      rfl
    · rw [← (searchLoop_halt P t f s d n m1 hc).1]
      exact h

/-- When the `n`-th ancestor is its own parent, `n + 1` iterations finish the loop. -/
theorem searchLoop_finishes (P : Platform) (t f s : String) (n : Nat) :
    ∀ d : String, P.Dir (chain P d n) = chain P d n →
      ∃ o, searchLoop P t f s (n + 1) d = some o := by
  induction n with
  | zero =>
    intro d h
    have hc : ¬ Continues P t f s d := fun hc => hc.2.2.2 h
    exact Option.isSome_iff_exists.mp (searchLoop_halt P t f s d 0 0 hc).2
  | succ n ih =>
    intro d h
    by_cases hc : Continues P t f s d
    · rw [chain_succ_left] at h
      obtain ⟨o, ho⟩ := ih (P.Dir d) h
      exact ⟨o.afterProbes (checkedAt P t f d), by
        rw [searchLoop_continue P t f s d (n + 1) hc, ho]; rfl⟩
    · exact Option.isSome_iff_exists.mp (searchLoop_halt P t f s d (n + 1) 0 hc).2

/-- A loop that meets the target nowhere on the ancestor chain fails with "file not found". -/
theorem searchLoop_absent (P : Platform) (t f s d : String) (fuel : Nat) (o : Outcome)
    (h : searchLoop P t f s fuel d = some o)
    (hnone : ∀ i, P.statOk (P.Join (chain P d i) t) = false) :
    o.result = ("", some fileNotFound) := by
  obtain ⟨k, _, _, hend⟩ := searchLoop_cases P t f s fuel d o h
  rcases hend with ⟨_, rfl⟩ | ⟨_, hfound, _⟩ | ⟨_, _, _, rfl⟩
  · rw [afterProbes_result, notFound_result]
  · rw [hnone k] at hfound
    exact absurd hfound Bool.false_ne_true
  · rw [afterProbes_result, notFound_result]

/-- A successful run of the loop returns the target at the first ancestor where it exists;
below it every iteration continued and it is not the stop directory. -/
theorem searchLoop_success (P : Platform) (t f s d : String) (fuel : Nat) (o : Outcome)
    (h : searchLoop P t f s fuel d = some o) (hok : o.err = none) :
    ∃ k, k < fuel ∧ (∀ i, i < k → Continues P t f s (chain P d i)) ∧
      ¬ (s ≠ "" ∧ chain P d k = s) ∧ P.statOk (P.Join (chain P d k) t) = true ∧
      o.path = P.Join (chain P d k) t := by
  obtain ⟨k, hk, hwalk, hend⟩ := searchLoop_cases P t f s fuel d o h
  rcases hend with ⟨_, rfl⟩ | ⟨hs, hfound, rfl⟩ | ⟨_, _, _, rfl⟩
  · simp [Outcome.afterProbes, notFound] at hok
  · exact ⟨k, hk, hwalk, hs, hfound, rfl⟩
  · simp [Outcome.afterProbes, notFound] at hok

theorem searchFile_success (P : Platform) (fuel : Nat) (startDir t f stopDir d0 : String)
    (o : Outcome) (hstart : P.Abs startDir = .ok d0)
    (h : searchFile P fuel startDir t f stopDir = some o) (hok : o.err = none) :
    ∃ s k, (stopDir = "" ∧ s = "" ∨ stopDir ≠ "" ∧ P.Abs stopDir = .ok s) ∧ k < fuel ∧
      (∀ i, i < k → Continues P t f s (chain P d0 i)) ∧
      ¬ (s ≠ "" ∧ chain P d0 k = s) ∧ P.statOk (P.Join (chain P d0 k) t) = true ∧
      o.path = P.Join (chain P d0 k) t := by
  by_cases hne : stopDir = ""
  · subst hne
    rw [searchFile_no_stop P fuel startDir t f d0 hstart] at h
    obtain ⟨o1, ho1, rfl⟩ := Option.map_eq_some'.mp h
    obtain ⟨k, hk⟩ := searchLoop_success P t f "" d0 fuel o1 ho1 hok
    exact ⟨"", k, Or.inl ⟨rfl, rfl⟩, hk⟩
  · cases hs : P.Abs stopDir with
    | error e =>
      rw [searchFile_stop_error P fuel startDir t f stopDir d0 e hstart hne hs] at h
      cases h
      simp at hok
    | ok s =>
      rw [searchFile_with_stop P fuel startDir t f stopDir d0 s hstart hne hs] at h
      obtain ⟨o1, ho1, rfl⟩ := Option.map_eq_some'.mp h
      obtain ⟨k, hk⟩ := searchLoop_success P t f s d0 fuel o1 ho1 hok
      exact ⟨s, k, Or.inr ⟨hne, rfl⟩, hk⟩

/-! ## Paths on Unix -/

theorem splitSlash_ne_nil (l : List Char) : splitSlash l ≠ [] := by
  cases l with
  | nil => simp [splitSlash]
  | cons c cs =>
    simp only [splitSlash]
    split
    · simp
    · split <;> simp

theorem splitSlash_slash_free (l : List Char) : ∀ e ∈ splitSlash l, '/' ∉ e := by
  induction l with
  | nil => intro e he; simp [splitSlash] at he; simp [he]
  | cons c cs ih =>
    intro e he
    simp only [splitSlash] at he
    by_cases hc : c = '/'
    · simp only [hc, if_true, List.mem_cons] at he
      rcases he with rfl | he
      · simp
      · exact ih e he
    · simp only [hc, if_false] at he
      cases hsp : splitSlash cs with
      | nil => exact absurd hsp (splitSlash_ne_nil cs)
      | cons e1 es =>
        rw [hsp] at he ih
        simp only [List.mem_cons] at he
        rcases he with rfl | he
        · have := ih e1 (List.mem_cons_self _ _)
          simp only [List.mem_cons, not_or]
          exact ⟨fun h => hc h.symm, this⟩
        · exact ih e (List.mem_cons_of_mem _ he)

theorem splitSlash_append_slash (e r : List Char) (he : '/' ∉ e) :
    splitSlash (e ++ '/' :: r) = e :: splitSlash r := by
  induction e with
  | nil => simp [splitSlash]
  | cons c cs ih =>
    simp only [List.mem_cons, not_or] at he
    have hc : c ≠ '/' := fun h => he.1 h.symm
    simp only [List.cons_append, splitSlash, hc, if_false, List.append_eq, ih he.2]

theorem splitSlash_of_slash_free (e : List Char) (he : '/' ∉ e) : splitSlash e = [e] := by
  induction e with
  | nil => rfl
  | cons c cs ih =>
    simp only [List.mem_cons, not_or] at he
    have hc : c ≠ '/' := fun h => he.1 h.symm
    simp only [splitSlash, hc, if_false, ih he.2]

theorem splitSlash_joinSlash (cs : List (List Char)) (hne : cs ≠ [])
    (hfree : ∀ e ∈ cs, '/' ∉ e) : splitSlash (joinSlash cs) = cs := by
  induction cs with
  | nil => exact absurd rfl hne
  | cons e es ih =>
    cases es with
    | nil => simpa [joinSlash] using splitSlash_of_slash_free e (hfree e (List.mem_cons_self _ _))
    | cons e1 es1 =>
      have h1 : '/' ∉ e := hfree e (List.mem_cons_self _ _)
      have h2 : ∀ x ∈ e1 :: es1, '/' ∉ x := fun x hx => hfree x (List.mem_cons_of_mem _ hx)
      simp only [joinSlash]
      rw [splitSlash_append_slash e _ h1, ih (by simp) h2]

theorem joinSlash_concat (cs : List (List Char)) (c : List Char) (hne : cs ≠ []) :
    joinSlash (cs ++ [c]) = joinSlash cs ++ '/' :: c := by
  induction cs with
  | nil => exact absurd rfl hne
  | cons e es ih =>
    cases es with
    | nil => simp [joinSlash]
    | cons e1 es1 =>
      have := ih (by simp)
      simp only [List.cons_append, joinSlash, List.append_eq] at this ⊢
      rw [this]
      simp

theorem cleanStep_nil (r : Bool) (stack : List (List Char)) : cleanStep r stack [] = stack := by
  simp [cleanStep]

theorem cleanStep_normal (r : Bool) (stack : List (List Char)) (e : List Char)
    (he : NormalElem e) : cleanStep r stack e = e :: stack := by
  obtain ⟨h1, h2, h3, _⟩ := he
  simp [cleanStep, h1, h2, h3]

theorem foldl_cleanStep_normal (r : Bool) (es : List (List Char)) :
    ∀ stack : List (List Char), (∀ e ∈ es, e = [] ∨ NormalElem e) →
      es.foldl (cleanStep r) stack = (es.filter (fun e => e ≠ [])).reverse ++ stack := by
  induction es with
  | nil => intro stack _; rfl
  | cons e es ih =>
    intro stack h
    have hrest : ∀ x ∈ es, x = [] ∨ NormalElem x := fun x hx => h x (List.mem_cons_of_mem _ hx)
    rcases h e (List.mem_cons_self _ _) with he | he
    · subst he
      simp [List.foldl, cleanStep_nil, ih stack hrest]
    · have hne : e ≠ [] := he.1
      simp [List.foldl, cleanStep_normal r stack e he, ih (e :: stack) hrest, hne]

theorem cleanStep_rooted_normal (stack : List (List Char)) (e : List Char)
    (hstack : ∀ x ∈ stack, NormalElem x) (he : '/' ∉ e) :
    ∀ x ∈ cleanStep true stack e, NormalElem x := by
  unfold cleanStep
  by_cases h1 : e = [] ∨ e = ['.']
  · simpa [h1] using hstack
  · rw [if_neg h1]
    by_cases h2 : e = ['.', '.']
    · rw [if_pos h2]
      cases stack with
      | nil => simp
      | cons top below =>
        have htop : top ≠ ['.', '.'] := (hstack top (List.mem_cons_self _ _)).2.2.1
        simp only [htop, if_false]
        exact fun x hx => hstack x (List.mem_cons_of_mem _ hx)
    · rw [if_neg h2]
      intro x hx
      simp only [List.mem_cons] at hx
      rcases hx with rfl | hx
      · simp only [not_or] at h1
        exact ⟨h1.1, h1.2, h2, he⟩
      · exact hstack x hx

theorem foldl_cleanStep_rooted_normal (es : List (List Char)) :
    ∀ stack : List (List Char), (∀ x ∈ stack, NormalElem x) → (∀ e ∈ es, '/' ∉ e) →
      ∀ x ∈ es.foldl (cleanStep true) stack, NormalElem x := by
  induction es with
  | nil => intro stack hs _; exact hs
  | cons e es ih =>
    intro stack hs hfree
    simp only [List.foldl]
    exact ih _ (cleanStep_rooted_normal stack e hs (hfree e (List.mem_cons_self _ _)))
      (fun x hx => hfree x (List.mem_cons_of_mem _ hx))

theorem cleanElems_rooted_normal (l : List Char) :
    ∀ x ∈ cleanElems true (splitSlash l), NormalElem x := by
  intro x hx
  simp only [cleanElems, List.mem_reverse] at hx
  exact foldl_cleanStep_rooted_normal (splitSlash l) [] (by simp) (splitSlash_slash_free l) x hx

theorem cleanChars_rooted (l : List Char) (h : l.head? = some '/') :
    cleanChars l = '/' :: joinSlash (cleanElems true (splitSlash l)) := by
  simp [cleanChars, h]

theorem isAbs_rootedPath (cs : List (List Char)) : IsAbs (rootedPath cs) = true := by
  simp [IsAbs, rootedPath]

theorem clean_rooted_form (p : String) (h : IsAbs p = true) :
    ∃ cs, (∀ e ∈ cs, NormalElem e) ∧ Clean p = rootedPath cs := by
  refine ⟨cleanElems true (splitSlash p.data), cleanElems_rooted_normal p.data, ?_⟩
  have hh : p.data.head? = some '/' := by simpa [IsAbs] using h
  simp only [Clean, rootedPath, cleanChars_rooted p.data hh]

theorem clean_joined (es : List (List Char)) (hne : es ≠ [])
    (h : ∀ e ∈ es, e = [] ∨ NormalElem e) :
    Clean ⟨'/' :: joinSlash es⟩ = rootedPath (es.filter (fun e => e ≠ [])) := by
  have hfree : ∀ e ∈ es, '/' ∉ e := by
    intro e he
    rcases h e he with rfl | hn
    · simp
    · exact hn.2.2.2
  have hsplit : splitSlash ('/' :: joinSlash es) = [] :: es := by
    simp [splitSlash, splitSlash_joinSlash es hne hfree]
  have hall : ∀ e ∈ ([] : List Char) :: es, e = [] ∨ NormalElem e := by
    intro e he
    simp only [List.mem_cons] at he
    rcases he with rfl | he
    · exact Or.inl rfl
    · exact h e he
  simp only [Clean, rootedPath]
  rw [cleanChars_rooted _ (by simp), hsplit, cleanElems,
    foldl_cleanStep_normal true _ [] hall]
  simp

theorem clean_rootedPath (cs : List (List Char)) (h : ∀ e ∈ cs, NormalElem e) :
    Clean (rootedPath cs) = rootedPath cs := by
  cases cs with
  | nil => decide
  | cons c cs1 =>
    have := clean_joined (c :: cs1) (by simp) (fun e he => Or.inr (h e he))
    rw [List.filter_eq_self.mpr (fun e he => by simpa using (h e he).1)] at this
    exact this

theorem dirPrefix_append (a c : List Char) (hc : '/' ∉ c) :
    dirPrefix (a ++ '/' :: c) = a ++ ['/'] := by
  have hdrop : ∀ x ∈ c.reverse, (fun ch : Char => decide (ch ≠ '/')) x = true := by
    intro x hx
    have hx1 : x ∈ c := List.mem_reverse.mp hx
    have : x ≠ '/' := fun hx2 => hc (hx2 ▸ hx1)
    simpa using this
  simp only [dirPrefix, List.reverse_append, List.reverse_cons, List.append_assoc]
  rw [List.dropWhile_append_of_pos hdrop]
  simp

theorem dir_root : Dir (rootedPath []) = rootedPath [] := by decide

theorem dir_rootedPath_concat (cs : List (List Char)) (c : List Char)
    (h : ∀ e ∈ cs ++ [c], NormalElem e) : Dir (rootedPath (cs ++ [c])) = rootedPath cs := by
  have hc : '/' ∉ c := (h c (by simp)).2.2.2
  have hcs : ∀ e ∈ cs, NormalElem e := fun e he => h e (by simp [he])
  have hpre : dirPrefix (rootedPath (cs ++ [c])).data = '/' :: joinSlash (cs ++ [[]]) := by
    cases cs with
    | nil =>
      have := dirPrefix_append [] c hc
      simpa [rootedPath, joinSlash] using this
    | cons e es =>
      have h1 := joinSlash_concat (e :: es) c (by simp)
      have h2 := joinSlash_concat (e :: es) [] (by simp)
      simp only [rootedPath]
      rw [h1, h2]
      have := dirPrefix_append ('/' :: joinSlash (e :: es)) c hc
      simpa using this
  have hall : ∀ e ∈ cs ++ [[]], e = [] ∨ NormalElem e := by
    intro e he
    simp only [List.mem_append, List.mem_singleton] at he
    rcases he with he | he
    · exact Or.inr (hcs e he)
    · exact Or.inl he
  have hfilter : (cs ++ [[]]).filter (fun e => e ≠ []) = cs := by
    rw [List.filter_append, List.filter_eq_self.mpr (fun e he => by simpa using (hcs e he).1)]
    simp
  unfold Dir
  rw [hpre, clean_joined (cs ++ [[]]) (by simp) hall, hfilter]

theorem dir_rootedPath (cs : List (List Char)) (h : ∀ e ∈ cs, NormalElem e) :
    Dir (rootedPath cs) = rootedPath cs.dropLast := by
  rcases List.eq_nil_or_concat cs with rfl | ⟨L, b, rfl⟩
  · exact dir_root
  · rw [List.concat_eq_append] at h ⊢
    rw [dir_rootedPath_concat L b h, List.dropLast_concat]

theorem depth_rootedPath (cs : List (List Char)) (h : ∀ e ∈ cs, NormalElem e) :
    depth (rootedPath cs) = cs.length := by
  cases cs with
  | nil => decide
  | cons c cs1 =>
    have hfree : ∀ e ∈ c :: cs1, '/' ∉ e := fun e he => (h e he).2.2.2
    have hsplit : splitSlash ('/' :: joinSlash (c :: cs1)) = [] :: c :: cs1 := by
      simp [splitSlash, splitSlash_joinSlash (c :: cs1) (by simp) hfree]
    have hf : (c :: cs1).filter (fun e => e ≠ []) = c :: cs1 :=
      List.filter_eq_self.mpr (fun e he => by simpa using (h e he).1)
    simp only [depth, rootedPath, hsplit]
    rw [List.filter_cons_of_neg (by simp), hf]

theorem cleanStep_solid (r : Bool) (stack : List (List Char)) (e : List Char)
    (hstack : ∀ x ∈ stack, x ≠ [] ∧ '/' ∉ x) (he : '/' ∉ e) :
    ∀ x ∈ cleanStep r stack e, x ≠ [] ∧ '/' ∉ x := by
  unfold cleanStep
  by_cases h1 : e = [] ∨ e = ['.']
  · simpa [h1] using hstack
  · rw [if_neg h1]
    simp only [not_or] at h1
    have hcons : ∀ x ∈ e :: stack, x ≠ [] ∧ '/' ∉ x := by
      intro x hx
      simp only [List.mem_cons] at hx
      rcases hx with rfl | hx
      · exact ⟨h1.1, he⟩
      · exact hstack x hx
    by_cases h2 : e = ['.', '.']
    · rw [if_pos h2]
      cases stack with
      | nil =>
        cases r
        · intro x hx
          simp only [Bool.false_eq_true, if_false, List.mem_singleton] at hx
          subst hx
          exact ⟨h1.1, he⟩
        · simp
      | cons top below =>
        by_cases htop : top = ['.', '.']
        · simp only [htop, if_true]
          rw [htop] at hcons
          exact hcons
        · simp only [htop, if_false]
          exact fun x hx => hstack x (List.mem_cons_of_mem _ hx)
    · rw [if_neg h2]
      exact hcons

theorem foldl_cleanStep_solid (r : Bool) (es : List (List Char)) :
    ∀ stack : List (List Char), (∀ x ∈ stack, x ≠ [] ∧ '/' ∉ x) → (∀ e ∈ es, '/' ∉ e) →
      ∀ x ∈ es.foldl (cleanStep r) stack, x ≠ [] ∧ '/' ∉ x := by
  induction es with
  | nil => intro stack hs _; exact hs
  | cons e es ih =>
    intro stack hs hfree
    simp only [List.foldl]
    exact ih _ (cleanStep_solid r stack e hs (hfree e (List.mem_cons_self _ _)))
      (fun x hx => hfree x (List.mem_cons_of_mem _ hx))

theorem joinSlash_head (es : List (List Char)) (h : ∀ x ∈ es, x ≠ [] ∧ '/' ∉ x) :
    (joinSlash es).head? ≠ some '/' := by
  cases es with
  | nil => simp [joinSlash]
  | cons e es1 =>
    obtain ⟨hne, hfree⟩ := h e (List.mem_cons_self _ _)
    cases e with
    | nil => exact absurd rfl hne
    | cons c cs =>
      have hc : c ≠ '/' := by
        intro hc
        apply hfree
        simp [hc]
      cases es1 with
      | nil => simpa [joinSlash] using hc
      | cons e2 es2 => simpa [joinSlash] using hc

theorem isAbs_clean (p : String) : IsAbs (Clean p) = IsAbs p := by
  cases h : IsAbs p with
  | true =>
    obtain ⟨cs, _, hcs⟩ := clean_rooted_form p h
    rw [hcs]; exact isAbs_rootedPath cs
  | false =>
    have hh : ¬ p.data.head? = some '/' := by simpa [IsAbs] using h
    have hsolid : ∀ x ∈ cleanElems false (splitSlash p.data), x ≠ [] ∧ '/' ∉ x := by
      intro x hx
      simp only [cleanElems, List.mem_reverse] at hx
      exact foldl_cleanStep_solid false (splitSlash p.data) [] (by simp)
        (splitSlash_slash_free p.data) x hx
    have hbody := joinSlash_head _ hsolid
    simp only [IsAbs, Clean, cleanChars, hh, decide_False, Bool.false_eq_true, if_false]
    by_cases hb : joinSlash (cleanElems false (splitSlash p.data)) = []
    · simp [hb]
    · simp only [hb, if_false]
      simpa using hbody

theorem isAbs_ne_empty (p : String) (h : IsAbs p = true) : p ≠ "" := by
  intro hp
  subst hp
  simp [IsAbs] at h

theorem join_rooted_form (a b : String) (h : IsAbs (Join a b) = true) :
    ∃ cs, (∀ e ∈ cs, NormalElem e) ∧ Join a b = rootedPath cs := by
  unfold Join at h ⊢
  by_cases ha : a ≠ ""
  · rw [if_pos ha] at h ⊢
    rw [isAbs_clean] at h
    exact clean_rooted_form _ h
  · rw [if_neg ha] at h ⊢
    by_cases hb : b ≠ ""
    · rw [if_pos hb] at h ⊢
      rw [isAbs_clean] at h
      exact clean_rooted_form _ h
    · rw [if_neg hb] at h
      simp [IsAbs] at h

theorem join_isAbs (a b : String) (h : IsAbs a = true) : IsAbs (Join a b) = true := by
  have ha : a ≠ "" := isAbs_ne_empty a h
  have hh : a.data.head? = some '/' := by simpa [IsAbs] using h
  unfold Join
  rw [if_pos ha, isAbs_clean]
  cases hd : a.data with
  | nil => rw [hd] at hh; simp at hh
  | cons c cs =>
    rw [hd] at hh
    simpa [IsAbs] using hh

/-- A start directory that resolves to an absolute path resolves to a cleaned one. -/
theorem abs_rooted_form (getwd : Except GoError String) (p d : String)
    (h : Abs getwd p = .ok d) (habs : IsAbs d = true) :
    ∃ cs, (∀ e ∈ cs, NormalElem e) ∧ d = rootedPath cs := by
  unfold Abs at h
  by_cases hp : IsAbs p = true
  · rw [if_pos hp] at h
    cases h
    exact clean_rooted_form p hp
  · rw [if_neg hp] at h
    cases getwd with
    | error e => cases h
    | ok wd =>
      simp only [Except.ok.injEq] at h
      subst h
      exact join_rooted_form wd p habs

theorem chain_rootedPath (getwd : Except GoError String) (stat : String → Option GoError)
    (cs : List (List Char)) (h : ∀ e ∈ cs, NormalElem e) (i : Nat) :
    ∃ cs1, (∀ e ∈ cs1, NormalElem e) ∧ cs1.length = cs.length - i ∧
      chain (unix getwd stat) (rootedPath cs) i = rootedPath cs1 := by
  induction i with
  | zero => exact ⟨cs, h, rfl, rfl⟩
  | succ i ih =>
    obtain ⟨cs1, hn, hlen, hch⟩ := ih
    refine ⟨cs1.dropLast, fun e he => hn e (List.mem_of_mem_dropLast he), ?_, ?_⟩
    · rw [List.length_dropLast, hlen]; omega
    · simp only [chain]
      rw [hch]
      exact dir_rootedPath cs1 hn

/-- The ancestor of a cleaned absolute path at index `depth` is the root, its own parent. -/
theorem chain_depth_fixed (getwd : Except GoError String) (stat : String → Option GoError)
    (cs : List (List Char)) (h : ∀ e ∈ cs, NormalElem e) :
    (unix getwd stat).Dir (chain (unix getwd stat) (rootedPath cs) (depth (rootedPath cs))) =
      chain (unix getwd stat) (rootedPath cs) (depth (rootedPath cs)) := by
  obtain ⟨cs1, _, hlen, hch⟩ := chain_rootedPath getwd stat cs h (depth (rootedPath cs))
  rw [depth_rootedPath cs h, Nat.sub_self] at hlen
  have : cs1 = [] := List.eq_nil_of_length_eq_zero hlen
  subst this
  rw [hch]
  exact dir_root

/-! ## The command line -/

theorem sprintf_string_newline (p : String) : Sprintf "%s\n" [.str p] = p ++ "\n" := by
  simp [Sprintf, formatChars, isVerb, Operand.text]
  rfl

theorem sprintf_error_newline (e : GoError) : Sprintf "%v\n" [.err e] = e.Error ++ "\n" := by
  simp [Sprintf, formatChars, isVerb, Operand.text]
  rfl

theorem sprintf_error_label : Sprintf "ERROR: " [] = "ERROR: " := by decide

theorem sprintf_missing_target :
    Sprintf "Missing target file name" [] = "Missing target file name" := by decide

theorem empty_append (a : String) : "" ++ a = a := by
  apply String.ext
  simp

theorem errorAndExit_eq (options : Options) (msg : String) (params : List Operand) :
    errorAndExit options msg params { stdout := "", stderr := "" } =
      .exited 1 { stdout := "",
                  stderr := if options.quiet then "" else "ERROR: " ++ Sprintf msg params } := by
  cases hq : options.quiet <;>
    simp [errorAndExit, hq, printStderr, sprintf_error_label, empty_append]

/-! ## Dependence on the oracle and on the stop directory -/

theorem chain_withStat (P : Platform) (st : String → Option GoError) (d : String) (i : Nat) :
    chain (P.withStat st) d i = chain P d i := by
  induction i with
  | zero => rfl
  | succ i ih => simp only [chain, ih]; rfl

/-- The loop reads the oracle only through the test `err == nil`, and only at the
directories it examines before the stop directory. -/
theorem searchLoop_congr (P : Platform) (st1 st2 : String → Option GoError) (t f s : String)
    (fuel : Nat) :
    ∀ d : String,
      (∀ i, i < fuel → (∀ j, j ≤ i → ¬ (s ≠ "" ∧ chain P d j = s)) →
        (st1 (P.Join (chain P d i) t)).isNone = (st2 (P.Join (chain P d i) t)).isNone ∧
        (st1 (P.Join (chain P d i) f)).isNone = (st2 (P.Join (chain P d i) f)).isNone) →
      searchLoop (P.withStat st1) t f s fuel d = searchLoop (P.withStat st2) t f s fuel d := by
  induction fuel with
  | zero => intro d _; rfl
  | succ n ih =>
    intro d h
    by_cases hs : s ≠ "" ∧ d = s
    · rw [searchLoop_stop _ t f s d n hs, searchLoop_stop _ t f s d n hs]
    · have h0 := h 0 (Nat.succ_pos n) (by
        intro j hj
        have : j = 0 := by omega
        subst this
        exact hs)
      simp only [chain] at h0
      have hrec : searchLoop (P.withStat st1) t f s n (P.Dir d) =
          searchLoop (P.withStat st2) t f s n (P.Dir d) := by
        apply ih
        intro i hi hj
        rw [← chain_succ_left]
        apply h (i + 1) (Nat.succ_lt_succ hi)
        intro j hj1
        cases j with
        | zero => exact hs
        | succ j =>
          rw [chain_succ_left]
          exact hj j (Nat.le_of_succ_le_succ hj1)
      simp only [Platform.withStat] at hrec
      simp only [searchLoop, Platform.withStat, Platform.statOk, if_neg hs, h0.1, h0.2, hrec]

/-- A stop directory that is none of the ancestors never ends the loop. -/
theorem searchLoop_off_chain (P : Platform) (t f s : String) (fuel : Nat) :
    ∀ d : String, (∀ i, chain P d i ≠ s) →
      searchLoop P t f s fuel d = searchLoop P t f "" fuel d := by
  induction fuel with
  | zero => intro d _; rfl
  | succ n ih =>
    intro d h
    have hs : ¬ (s ≠ "" ∧ d = s) := fun hs => h 0 hs.2
    have hs0 : ¬ (("" : String) ≠ "" ∧ d = "") := fun hs => hs.1 rfl
    have hrec := ih (P.Dir d) (fun i => by rw [← chain_succ_left]; exact h (i + 1))
    simp only [searchLoop, if_neg hs, if_neg hs0, hrec]

/-- When the `k`-th ancestor is the stop directory, `k + 1` iterations finish the loop. -/
theorem searchLoop_stops_by (P : Platform) (t f s : String) (hs : s ≠ "") (k : Nat) :
    ∀ d : String, chain P d k = s → ∃ o, searchLoop P t f s (k + 1) d = some o := by
  induction k with
  | zero =>
    intro d h
    exact ⟨notFound, searchLoop_stop P t f s d 0 ⟨hs, h⟩⟩
  | succ k ih =>
    intro d h
    by_cases hc : Continues P t f s d
    · rw [chain_succ_left] at h
      obtain ⟨o, ho⟩ := ih (P.Dir d) h
      exact ⟨o.afterProbes (checkedAt P t f d), by
        rw [searchLoop_continue P t f s d (k + 1) hc, ho]; rfl⟩
    · exact Option.isSome_iff_exists.mp (searchLoop_halt P t f s d (k + 1) 0 hc).2

/-- The iteration at which a finished loop ended does not continue. -/
theorem searchLoop_end (P : Platform) (t f s : String) (fuel : Nat) (d : String) (o : Outcome)
    (h : searchLoop P t f s fuel d = some o) :
    ∃ k, k < fuel ∧ (∀ i, i < k → Continues P t f s (chain P d i)) ∧
      ¬ Continues P t f s (chain P d k) := by
  obtain ⟨k, hk, hwalk, hend⟩ := searchLoop_cases P t f s fuel d o h
  refine ⟨k, hk, hwalk, ?_⟩
  rcases hend with ⟨h1, _⟩ | ⟨_, h2, _⟩ | ⟨_, _, h3, _⟩
  · exact fun hc => hc.1 h1
  · exact fun hc => by rw [hc.2.1] at h2; exact Bool.false_ne_true h2
  · rcases h3 with h3 | h3
    · exact fun hc => hc.2.2.1 h3
    · exact fun hc => hc.2.2.2 h3

theorem chain_shift (P : Platform) (d : String) (i j : Nat) (h : chain P d i = chain P d j) :
    ∀ x, chain P d (i + x) = chain P d (j + x) := by
  intro x
  induction x with
  | zero => exact h
  | succ x ih =>
    have h1 : i + (x + 1) = (i + x) + 1 := by omega
    have h2 : j + (x + 1) = (j + x) + 1 := by omega
    rw [h1, h2]
    simp only [chain, ih]

/-- The directories at the head of the iterations of a finished loop are pairwise
distinct: a directory met twice would be met forever. -/
theorem searchLoop_distinct (P : Platform) (t f s : String) (d : String) (k : Nat)
    (hwalk : ∀ i, i < k → Continues P t f s (chain P d i))
    (hend : ¬ Continues P t f s (chain P d k)) :
    ∀ i j, i < j → j ≤ k → chain P d i ≠ chain P d j := by
  intro i j hij hjk heq
  have hshift := chain_shift P d i j heq (k - j)
  have hk : j + (k - j) = k := by omega
  rw [hk] at hshift
  apply hend
  rw [← hshift]
  exact hwalk (i + (k - j)) (by omega)

theorem searchFile_congr (P : Platform) (st1 st2 : String → Option GoError) (fuel : Nat)
    (startDir t f stopDir : String)
    (h : ∀ d0 s, P.Abs startDir = .ok d0 →
      (stopDir = "" ∧ s = "" ∨ stopDir ≠ "" ∧ P.Abs stopDir = .ok s) →
      searchLoop (P.withStat st1) t f s fuel d0 = searchLoop (P.withStat st2) t f s fuel d0) :
    searchFile (P.withStat st1) fuel startDir t f stopDir =
      searchFile (P.withStat st2) fuel startDir t f stopDir := by
  cases hA : P.Abs startDir with
  | error e =>
    rw [searchFile_start_error (P.withStat st1) fuel startDir t f stopDir e hA,
      searchFile_start_error (P.withStat st2) fuel startDir t f stopDir e hA]
  | ok d0 =>
    by_cases hne : stopDir = ""
    · subst hne
      rw [searchFile_no_stop (P.withStat st1) fuel startDir t f d0 hA,
        searchFile_no_stop (P.withStat st2) fuel startDir t f d0 hA,
        h d0 "" hA (Or.inl ⟨rfl, rfl⟩)]
    · cases hS : P.Abs stopDir with
      | error e =>
        rw [searchFile_stop_error (P.withStat st1) fuel startDir t f stopDir d0 e hA hne hS,
          searchFile_stop_error (P.withStat st2) fuel startDir t f stopDir d0 e hA hne hS]
      | ok s =>
        rw [searchFile_with_stop (P.withStat st1) fuel startDir t f stopDir d0 s hA hne hS,
          searchFile_with_stop (P.withStat st2) fuel startDir t f stopDir d0 s hA hne hS,
          h d0 s hA (Or.inr ⟨hne, hS⟩)]

/-! ## The loop and the scan of the ancestor sequence -/

theorem specCut_cons (stop : Option String) (s d : String) (rest : List String)
    (hrel : stop = none ∧ s = "" ∨ stop = some s ∧ s ≠ "") :
    specCut stop (d :: rest) = if s ≠ "" ∧ d = s then [] else d :: specCut stop rest := by
  rcases hrel with ⟨h1, h2⟩ | ⟨h1, h2⟩
  · subst h1; subst h2
    simp [specCut]
  · subst h1
    by_cases hd : d = s
    · simp [specCut, List.takeWhile_cons, hd, h2]
    · simp [specCut, List.takeWhile_cons, hd]

/-- Once the last directory of the sequence is its own parent, the loop computes the scan
of the cut ancestor sequence. -/
theorem searchLoop_eq_scan (P : Platform) (t f s : String) (stop : Option String)
    (hrel : stop = none ∧ s = "" ∨ stop = some s ∧ s ≠ "") (n : Nat) :
    ∀ d : String, P.Dir (chain P d n) = chain P d n →
      (searchLoop P t f s (n + 1) d).map Outcome.result =
        some (specScan P t f (specCut stop (specAncestors P n d))) := by
  induction n with
  | zero =>
    intro d hfix
    simp only [chain] at hfix
    simp only [specAncestors, specCut_cons stop s d [] hrel]
    by_cases hs : s ≠ "" ∧ d = s
    · rw [searchLoop_stop P t f s d 0 hs, if_pos hs]
      simp [specScan, notFound_result]
    · rw [if_neg hs]
      have hnil : specCut stop [] = [] := by
        cases stop <;> simp [specCut]
      rw [hnil]
      cases ht : P.statOk (P.Join d t) with
      | true =>
        rw [searchLoop_found P t f s d 0 hs ht]
        simp [specScan, ht, Outcome.result]
      | false =>
        by_cases hf : f ≠ "" ∧ P.statOk (P.Join d f) = true
        · rw [searchLoop_marker P t f s d 0 hs ht hf]
          simp [specScan, ht, hf, afterProbes_result, notFound_result]
        · rw [searchLoop_root P t f s d 0 hs ht hf hfix]
          simp only [specScan, ht, if_neg hf, Option.map_some', afterProbes_result,
            notFound_result]
          simp
  | succ n ih =>
    intro d hfix
    rw [chain_succ_left] at hfix
    have hrec := ih (P.Dir d) hfix
    simp only [specAncestors, specCut_cons stop s d _ hrel]
    by_cases hs : s ≠ "" ∧ d = s
    · rw [searchLoop_stop P t f s d (n + 1) hs, if_pos hs]
      simp [specScan, notFound_result]
    · rw [if_neg hs]
      cases ht : P.statOk (P.Join d t) with
      | true =>
        rw [searchLoop_found P t f s d (n + 1) hs ht]
        simp [specScan, ht, Outcome.result]
      | false =>
        by_cases hf : f ≠ "" ∧ P.statOk (P.Join d f) = true
        · rw [searchLoop_marker P t f s d (n + 1) hs ht hf]
          simp [specScan, ht, hf, afterProbes_result, notFound_result]
        · by_cases hd : P.Dir d = d
          · rw [searchLoop_root P t f s d (n + 1) hs ht hf hd]
            rw [hd, searchLoop_root P t f s d n hs ht hf hd] at hrec
            simp only [specScan, ht, if_neg hf, Bool.false_eq_true, if_false]
            rw [hd, ← hrec]
          · rw [searchLoop_continue P t f s d (n + 1) ⟨hs, ht, hf, hd⟩, Option.map_map]
            simp only [specScan, ht, if_neg hf, Bool.false_eq_true, if_false]
            rw [← hrec]
            cases searchLoop P t f s (n + 1) (P.Dir d) <;> rfl

theorem specAncestors_getLast (P : Platform) (n : Nat) :
    ∀ d : String, (specAncestors P n d).getLast? = some (chain P d n) := by
  induction n with
  | zero => intro d; rfl
  | succ n ih =>
    intro d
    have hne : specAncestors P n (P.Dir d) ≠ [] := by
      cases n <;> simp [specAncestors]
    rw [chain_succ_left, ← ih (P.Dir d)]
    simp only [specAncestors]
    cases hsp : specAncestors P n (P.Dir d) with
    | nil => exact absurd hsp hne
    | cons a l => simp [List.getLast?_cons_cons]

theorem cleanChars_ne_nil (l : List Char) : cleanChars l ≠ [] := by
  unfold cleanChars
  simp only
  split
  · simp
  · split
    · simp
    · assumption

theorem clean_ne_empty (p : String) : Clean p ≠ "" := by
  intro h
  have := congrArg String.data h
  exact cleanChars_ne_nil p.data this

/-- A non-empty path never resolves to the empty string. -/
theorem abs_ne_empty (getwd : Except GoError String) (p d : String) (hp : p ≠ "")
    (h : Abs getwd p = .ok d) : d ≠ "" := by
  unfold Abs at h
  by_cases ha : IsAbs p = true
  · rw [if_pos ha] at h
    cases h
    exact clean_ne_empty p
  · rw [if_neg ha] at h
    cases getwd with
    | error e => cases h
    | ok wd =>
      simp only [Except.ok.injEq] at h
      subst h
      unfold Join
      by_cases hw : wd ≠ ""
      · rw [if_pos hw]; exact clean_ne_empty _
      · rw [if_neg hw, if_pos hp]; exact clean_ne_empty _

/-! ## The trace of existence checks -/

theorem probesOfPrefix_succ (P : Platform) (t f d : String) (m : Nat) :
    probesOfPrefix P t f d (m + 1) =
      probesOfPrefix P t f d m ++ probeBlock P t f (chain P d m) := by
  simp [probesOfPrefix, List.range_succ]

theorem probeBlock_of_absent (P : Platform) (t f d : String)
    (h : P.statOk (P.Join d t) = false) : probeBlock P t f d = checkedAt P t f d := by
  simp [probeBlock, checkedAt, h]

theorem probeBlock_of_found (P : Platform) (t f d : String)
    (h : P.statOk (P.Join d t) = true) : probeBlock P t f d = [P.Join d t] := by
  simp [probeBlock, h]

theorem walkProbes_succ (P : Platform) (t f : String) (k : Nat) :
    ∀ d : String, walkProbes P t f (k + 1) d =
      walkProbes P t f k d ++ checkedAt P t f (chain P d k) := by
  induction k with
  | zero => intro d; simp [walkProbes, chain]
  | succ k ih =>
    intro d
    have h1 : walkProbes P t f (k + 1 + 1) d =
        checkedAt P t f d ++ walkProbes P t f (k + 1) (P.Dir d) := rfl
    rw [h1, ih (P.Dir d), ← chain_succ_left, ← List.append_assoc]
    rfl

theorem walkProbes_eq_prefix (P : Platform) (t f s d : String) (k : Nat)
    (h : ∀ i, i < k → Continues P t f s (chain P d i)) :
    walkProbes P t f k d = probesOfPrefix P t f d k := by
  induction k with
  | zero => simp [walkProbes, probesOfPrefix]
  | succ k ih =>
    rw [walkProbes_succ, probesOfPrefix_succ, ih (fun i hi => h i (Nat.lt_succ_of_lt hi)),
      probeBlock_of_absent P t f _ (h k (Nat.lt_succ_self k)).2.1]

/-- The existence checks of a finished loop are those of the first `m` directories of the
ancestor chain, block by block, and these directories are pairwise distinct. -/
theorem searchLoop_trace (P : Platform) (t f s : String) (fuel : Nat) (d : String)
    (o : Outcome) (h : searchLoop P t f s fuel d = some o) :
    ∃ m, m ≤ fuel ∧ o.probes = probesOfPrefix P t f d m ∧
      ∀ i j, i < j → j < m → chain P d i ≠ chain P d j := by
  obtain ⟨k, hk, hwalk, hend⟩ := searchLoop_cases P t f s fuel d o h
  have hpre := walkProbes_eq_prefix P t f s d k hwalk
  rcases hend with ⟨h1, rfl⟩ | ⟨h1, h2, rfl⟩ | ⟨h1, h2, h3, rfl⟩
  · have hnc : ¬ Continues P t f s (chain P d k) := fun hc => hc.1 h1
    refine ⟨k, Nat.le_of_lt hk, ?_, fun i j hij hj =>
      searchLoop_distinct P t f s d k hwalk hnc i j hij (Nat.le_of_lt hj)⟩
    simp [Outcome.afterProbes, notFound, hpre]
  · have hnc : ¬ Continues P t f s (chain P d k) := fun hc => by
      rw [hc.2.1] at h2; exact Bool.false_ne_true h2
    refine ⟨k + 1, hk, ?_, fun i j hij hj =>
      searchLoop_distinct P t f s d k hwalk hnc i j hij (Nat.le_of_lt_succ hj)⟩
    rw [probesOfPrefix_succ, probeBlock_of_found P t f _ h2, hpre]
  · have hnc : ¬ Continues P t f s (chain P d k) := fun hc => by
      rcases h3 with h3 | h3
      · exact hc.2.2.1 h3
      · exact hc.2.2.2 h3
    refine ⟨k + 1, hk, ?_, fun i j hij hj =>
      searchLoop_distinct P t f s d k hwalk hnc i j hij (Nat.le_of_lt_succ hj)⟩
    rw [probesOfPrefix_succ, probeBlock_of_absent P t f _ h2, hpre]
    simp [Outcome.afterProbes, notFound]

/-! ## The invariant of the search state -/

theorem components_rootedPath (cs : List (List Char)) (h : ∀ e ∈ cs, NormalElem e) :
    components (rootedPath cs) = cs := by
  cases cs with
  | nil => decide
  | cons c cs1 =>
    have hfree : ∀ e ∈ c :: cs1, '/' ∉ e := fun e he => (h e he).2.2.2
    have hsplit : splitSlash ('/' :: joinSlash (c :: cs1)) = [] :: c :: cs1 := by
      simp [splitSlash, splitSlash_joinSlash (c :: cs1) (by simp) hfree]
    have hf : (c :: cs1).filter (fun e => e ≠ []) = c :: cs1 :=
      List.filter_eq_self.mpr (fun e he => by simpa using (h e he).1)
    simp only [components, rootedPath, hsplit]
    rw [List.filter_cons_of_neg (by simp), hf]

theorem depth_eq_components (p : String) : depth p = (components p).length := rfl

/-- When `os.Getwd` returns rooted paths, `filepath.Abs` returns absolute paths. -/
theorem abs_isAbs (getwd : Except GoError String) (p d : String)
    (hwd : ∀ wd, getwd = .ok wd → IsAbs wd = true) (h : Abs getwd p = .ok d) :
    IsAbs d = true := by
  unfold Abs at h
  by_cases hp : IsAbs p = true
  · rw [if_pos hp] at h
    cases h
    rw [isAbs_clean]; exact hp
  · rw [if_neg hp] at h
    cases getwd with
    | error e => cases h
    | ok wd =>
      simp only [Except.ok.injEq] at h
      subst h
      exact join_isAbs wd p (hwd wd rfl)

theorem loopInv_form (d0 d : String) (h : LoopInv d0 d) :
    ∃ cs, (∀ e ∈ cs, NormalElem e) ∧ d = rootedPath cs := by
  obtain ⟨cs, hcs, heq⟩ := clean_rooted_form d h.1
  exact ⟨cs, hcs, by rw [← heq, h.2.1]⟩

theorem loopInv_rootedPath (cs : List (List Char)) (h : ∀ e ∈ cs, NormalElem e) :
    LoopInv (rootedPath cs) (rootedPath cs) :=
  ⟨isAbs_rootedPath cs, clean_rootedPath cs h, List.prefix_refl _⟩

/-- The assignment `currentDir = parentDir` keeps the invariant and removes exactly one
path component. -/
theorem loopInv_step (d0 d : String) (h : LoopInv d0 d) (hne : Dir d ≠ d) :
    LoopInv d0 (Dir d) ∧ depth (Dir d) + 1 = depth d := by
  obtain ⟨cs, hcs, rfl⟩ := loopInv_form d0 d h
  have hdl : ∀ e ∈ cs.dropLast, NormalElem e := fun e he => hcs e (List.mem_of_mem_dropLast he)
  have hcsne : cs ≠ [] := by
    intro h0
    subst h0
    exact hne dir_root
  rw [dir_rootedPath cs hcs]
  refine ⟨⟨isAbs_rootedPath _, clean_rootedPath _ hdl, ?_⟩, ?_⟩
  · have hpre := h.2.2
    rw [components_rootedPath cs hcs] at hpre
    rw [components_rootedPath _ hdl]
    exact (List.dropLast_prefix cs).trans hpre
  · rw [depth_rootedPath _ hdl, depth_rootedPath cs hcs, List.length_dropLast]
    have : 0 < cs.length := List.length_pos.mpr hcsne
    omega

/-- The errors `searchFile` can return. -/
theorem searchFile_errors (P : Platform) (fuel : Nat) (startDir t f stopDir : String)
    (o : Outcome) (h : searchFile P fuel startDir t f stopDir = some o) :
    o.err = none ∨ o.err = some fileNotFound ∨
    (∃ e, P.Abs startDir = .error e ∧ o.err = some (.wrapError
      ("failed to get absolute path of start directory: " ++ e.Error) e)) ∨
    (∃ e, stopDir ≠ "" ∧ P.Abs stopDir = .error e ∧ o.err = some (.wrapError
      ("failed to get absolute path of stop directory: " ++ e.Error) e)) := by
  have hloop : ∀ s d0 o1, searchLoop P t f s fuel d0 = some o1 →
      o1.err = none ∨ o1.err = some fileNotFound := by
    intro s d0 o1 h1
    obtain ⟨k, _, _, hend⟩ := searchLoop_cases P t f s fuel d0 o1 h1
    rcases hend with ⟨_, rfl⟩ | ⟨_, _, rfl⟩ | ⟨_, _, _, rfl⟩
    · exact Or.inr (by simp [Outcome.afterProbes, notFound, errorf_file_not_found])
    · exact Or.inl rfl
    · exact Or.inr (by simp [Outcome.afterProbes, notFound, errorf_file_not_found])
  cases hA : P.Abs startDir with
  | error e =>
    rw [searchFile_start_error P fuel startDir t f stopDir e hA] at h
    cases h
    exact Or.inr (Or.inr (Or.inl ⟨e, rfl, rfl⟩))
  | ok d0 =>
    by_cases hne : stopDir = ""
    · subst hne
      rw [searchFile_no_stop P fuel startDir t f d0 hA] at h
      obtain ⟨o1, ho1, rfl⟩ := Option.map_eq_some'.mp h
      rcases hloop "" d0 o1 ho1 with h1 | h1
      · exact Or.inl h1
      · exact Or.inr (Or.inl h1)
    · cases hS : P.Abs stopDir with
      | error e =>
        rw [searchFile_stop_error P fuel startDir t f stopDir d0 e hA hne hS] at h
        cases h
        exact Or.inr (Or.inr (Or.inr ⟨e, hne, rfl, rfl⟩))
      | ok s =>
        rw [searchFile_with_stop P fuel startDir t f stopDir d0 s hA hne hS] at h
        obtain ⟨o1, ho1, rfl⟩ := Option.map_eq_some'.mp h
        rcases hloop s d0 o1 ho1 with h1 | h1
        · exact Or.inl h1
        · exact Or.inr (Or.inl h1)

theorem fsOf_fsDenied (paths : List String) (p : String) :
    (fsOf paths p).isNone = (fsDenied paths p).isNone := by
  by_cases h : p ∈ paths <;> simp [fsOf, fsDenied, h]

/-- A loop that has not finished within `k` iterations continued in each of them. -/
theorem searchLoop_none_continues (P : Platform) (t f s : String) (k : Nat) :
    ∀ d : String, searchLoop P t f s k d = none →
      ∀ i, i < k → Continues P t f s (chain P d i) := by
  induction k with
  | zero => intro d _ i hi; exact absurd hi (Nat.not_lt_zero i)
  | succ k ih =>
    intro d h i hi
    have hc : Continues P t f s d := by
      by_contra hnc
      have := (searchLoop_halt P t f s d k 0 hnc).2
      rw [h] at this
      simp at this
    cases i with
    | zero => exact hc
    | succ i =>
      rw [searchLoop_continue P t f s d k hc] at h
      have hrest : searchLoop P t f s k (P.Dir d) = none := by
        cases hsl : searchLoop P t f s k (P.Dir d) with
        | none => rfl
        | some o => rw [hsl] at h; simp at h
      rw [chain_succ_left]
      exact ih (P.Dir d) hrest i (Nat.lt_of_succ_lt_succ hi)

/-- Every directory of the ancestor chain of a resolved start directory satisfies the
invariant. -/
theorem loopInv_chain (getwd : Except GoError String) (stat : String → Option GoError)
    (cs : List (List Char)) (hcs : ∀ e ∈ cs, NormalElem e) (i : Nat) :
    LoopInv (rootedPath cs) (chain (unix getwd stat) (rootedPath cs) i) := by
  induction i with
  | zero => exact loopInv_rootedPath cs hcs
  | succ i ih =>
    simp only [chain]
    by_cases hfix : (unix getwd stat).Dir (chain (unix getwd stat) (rootedPath cs) i) =
        chain (unix getwd stat) (rootedPath cs) i
    · rw [hfix]; exact ih
    · exact (loopInv_step (rootedPath cs) _ ih hfix).1

/-! ## The claims -/

/-- C1. Nearest match wins: with `d_i = chain P d0 i` the ancestors of the resolved start
directory `d0`, if `k` is the least index such that `Join d_k targetFile` exists, the
resolved stop directory (if one is given) is none of `d_0..d_k`, and the marker (if one
is given) exists in none of `d_0..d_(k-1)`, then `searchFile` returns
`(Join d_k targetFile, nil)` as soon as it may run `k + 1` iterations. -/
theorem nearest_match_wins (P : Platform) (startDir targetFile flagFile stopDir d0 : String)
    (k : Nat) (hstart : P.Abs startDir = .ok d0)
    (hfound : P.statOk (P.Join (chain P d0 k) targetFile) = true)
    (hleast : ∀ i, i < k → P.statOk (P.Join (chain P d0 i) targetFile) = false)
    (hstop : stopDir = "" ∨ ∃ s, P.Abs stopDir = .ok s ∧ ∀ i, i ≤ k → chain P d0 i ≠ s)
    (hflag : flagFile = "" ∨
      ∀ i, i < k → P.statOk (P.Join (chain P d0 i) flagFile) = false) :
    ∀ fuel, k < fuel →
      (searchFile P fuel startDir targetFile flagFile stopDir).map Outcome.result =
        some (P.Join (chain P d0 k) targetFile, none) := by
  intro fuel hk
  have hres : stopDir = "" ∨ ∃ s, P.Abs stopDir = .ok s := by
    rcases hstop with h | ⟨s, hs, _⟩
    · exact Or.inl h
    · exact Or.inr ⟨s, hs⟩
  obtain ⟨s, hs, heq⟩ := searchFile_result P fuel startDir targetFile flagFile stopDir d0 hstart hres
  rw [heq]
  apply searchLoop_nearest P targetFile flagFile s d0 k _ hfound hleast hflag fuel hk
  intro i hi ⟨hne, hsi⟩
  rcases hs with ⟨_, h2⟩ | ⟨h1, h2⟩
  · exact hne h2
  · rcases hstop with h | ⟨s1, hs1, hnone⟩
    · exact h1 h
    · rw [h2] at hs1
      cases hs1
      exact hnone i hi hsi

/-- C1, on the example of the specification: start `/a/b/c`, target `x`, only `/a/x` exists. -/
theorem nearest_match_wins_witness :
    (searchFile (unix (.ok "/") (fsOf ["/a/x"])) 3 "/a/b/c" "x" "" "").map Outcome.result =
      some ("/a/x", none) :=
  nearest_match_wins (unix (.ok "/") (fsOf ["/a/x"])) "/a/b/c" "x" "" "" "/a/b/c" 2
    rfl (by decide) (by decide) (Or.inl rfl) (Or.inl rfl) 3 (by decide)

/-- C2. A stop marker blocks the ascent: if a marker is given and exists in the ancestor
`d_k` of the resolved start directory, and the target exists in none of `d_0..d_k`, then
`searchFile` returns the error "file not found" whatever the filesystem holds elsewhere
(the paths of the call being resolved, as the ancestor chain presupposes). -/
theorem marker_blocks_ascent (P : Platform) (startDir targetFile flagFile stopDir d0 : String)
    (k : Nat) (hstart : P.Abs startDir = .ok d0)
    (hstop : stopDir = "" ∨ ∃ s, P.Abs stopDir = .ok s)
    (hflag : flagFile ≠ "")
    (hmarker : P.statOk (P.Join (chain P d0 k) flagFile) = true)
    (hnone : ∀ i, i ≤ k → P.statOk (P.Join (chain P d0 i) targetFile) = false) :
    ∀ fuel, k < fuel →
      (searchFile P fuel startDir targetFile flagFile stopDir).map Outcome.result =
        some ("", some fileNotFound) := by
  intro fuel hk
  obtain ⟨s, _, heq⟩ :=
    searchFile_result P fuel startDir targetFile flagFile stopDir d0 hstart hstop
  rw [heq]
  exact searchLoop_marker_blocks P targetFile flagFile s hflag k d0 fuel hk hmarker hnone

/-- C2, on the example of the specification: start `/a/b/c`, target `x`, marker `.stop`,
`/a/b/.stop` and `/a/x` exist. -/
theorem marker_blocks_ascent_witness :
    (searchFile (unix (.ok "/") (fsOf ["/a/b/.stop", "/a/x"])) 2 "/a/b/c" "x" ".stop" "").map
      Outcome.result = some ("", some fileNotFound) :=
  marker_blocks_ascent (unix (.ok "/") (fsOf ["/a/b/.stop", "/a/x"])) "/a/b/c" "x" ".stop" ""
    "/a/b/c" 1 rfl (Or.inl rfl) (by decide) (by decide) (by decide) 2 (by decide)

/-- C3. The target check precedes the marker check: if the target and the marker both
exist in the ancestor `d_k`, neither exists in `d_0..d_(k-1)`, and the resolved stop
directory (if one is given) is none of `d_0..d_k`, then `searchFile` returns
`(Join d_k targetFile, nil)`. -/
theorem target_precedes_marker (P : Platform)
    (startDir targetFile flagFile stopDir d0 : String) (k : Nat)
    (hstart : P.Abs startDir = .ok d0)
    (htarget : P.statOk (P.Join (chain P d0 k) targetFile) = true)
    (hmarker : P.statOk (P.Join (chain P d0 k) flagFile) = true)
    (hbelow : ∀ i, i < k → P.statOk (P.Join (chain P d0 i) targetFile) = false ∧
      P.statOk (P.Join (chain P d0 i) flagFile) = false)
    (hstop : stopDir = "" ∨ ∃ s, P.Abs stopDir = .ok s ∧ ∀ i, i ≤ k → chain P d0 i ≠ s) :
    ∀ fuel, k < fuel →
      (searchFile P fuel startDir targetFile flagFile stopDir).map Outcome.result =
        some (P.Join (chain P d0 k) targetFile, none) := by
  intro fuel hk
  have _hm := hmarker
  have hres : stopDir = "" ∨ ∃ s, P.Abs stopDir = .ok s := by
    rcases hstop with h | ⟨s, hs, _⟩
    · exact Or.inl h
    · exact Or.inr ⟨s, hs⟩
  obtain ⟨s, hs, heq⟩ :=
    searchFile_result P fuel startDir targetFile flagFile stopDir d0 hstart hres
  rw [heq]
  apply searchLoop_nearest P targetFile flagFile s d0 k _ htarget
    (fun i hi => (hbelow i hi).1) (Or.inr (fun i hi => (hbelow i hi).2)) fuel hk
  intro i hi ⟨hne, hsi⟩
  rcases hs with ⟨_, h2⟩ | ⟨h1, h2⟩
  · exact hne h2
  · rcases hstop with h | ⟨s1, hs1, hnone⟩
    · exact h1 h
    · rw [h2] at hs1
      cases hs1
      exact hnone i hi hsi

/-- C3, on an example: target `x` and marker `.stop` both in `/a/b`, start `/a/b/c`. -/
theorem target_precedes_marker_witness :
    (searchFile (unix (.ok "/") (fsOf ["/a/b/.stop", "/a/b/x"])) 2 "/a/b/c" "x" ".stop"
      "/a").map Outcome.result = some ("/a/b/x", none) :=
  target_precedes_marker (unix (.ok "/") (fsOf ["/a/b/.stop", "/a/b/x"])) "/a/b/c" "x" ".stop"
    "/a" "/a/b/c" 1 rfl (by decide) (by decide) (by decide)
    (Or.inr ⟨"/a", rfl, by decide⟩) 2 (by decide)

/-- C4. A stop directory that resolves to the same absolute path as the start directory
makes `searchFile` return "file not found" in its first iteration, for every filesystem
oracle, with no existence check at all. -/
theorem stop_at_start_fails_unprobed (P : Platform)
    (startDir targetFile flagFile stopDir s : String) (hne : stopDir ≠ "")
    (hstart : P.Abs startDir = .ok s) (hstop : P.Abs stopDir = .ok s)
    (habs : IsAbs s = true) :
    ∀ fuel, 0 < fuel →
      searchFile P fuel startDir targetFile flagFile stopDir =
        some { path := "", err := some fileNotFound, resolved := [startDir, stopDir],
               probes := [] } := by
  intro fuel hfuel
  obtain ⟨n, rfl⟩ : ∃ n, fuel = n + 1 := ⟨fuel - 1, by omega⟩
  have hs : s ≠ "" := by
    intro h
    subst h
    simp [IsAbs] at habs
  rw [searchFile_with_stop P (n + 1) startDir targetFile flagFile stopDir s s hstart hne hstop,
    searchLoop_stop P targetFile flagFile s s n ⟨hs, rfl⟩]
  simp [notFound, Outcome.afterResolved, errorf_file_not_found]

/-- C4, on the example of the specification: start `.` and stop directory `.`, with the
target present in the current directory `/a/b`. -/
theorem stop_at_start_fails_unprobed_witness :
    (unix (.ok "/a/b") (fsOf ["/a/b/x"])).statOk "/a/b/x" = true ∧
    searchFile (unix (.ok "/a/b") (fsOf ["/a/b/x"])) 1 "." "x" "" "." =
      some { path := "", err := some fileNotFound, resolved := [".", "."], probes := [] } :=
  ⟨by decide,
   stop_at_start_fails_unprobed (unix (.ok "/a/b") (fsOf ["/a/b/x"])) "." "x" "" "." "/a/b"
    (by decide) rfl rfl (by decide) 1 (by decide)⟩

/-- C5. The walk terminates at the filesystem root: when the start directory resolves to
an absolute path `d0`, `depth d0 + 1` iterations always finish the loop (with that many
or more iterations allowed `searchFile` returns one and the same outcome), for every
target, marker, stop directory and filesystem oracle; and when the target exists in no
directory of the ancestor chain (the stop directory, if given, being resolved), the
returned error is "file not found". -/
theorem walk_terminates_at_root (getwd : Except GoError String)
    (stat : String → Option GoError) (startDir targetFile flagFile stopDir d0 : String)
    (hstart : Abs getwd startDir = .ok d0) (habs : IsAbs d0 = true) :
    (∃ o, ∀ fuel, depth d0 + 1 ≤ fuel →
      searchFile (unix getwd stat) fuel startDir targetFile flagFile stopDir = some o) ∧
    ((stopDir = "" ∨ ∃ s, Abs getwd stopDir = .ok s) →
      (∀ i, (unix getwd stat).statOk
        (Join (chain (unix getwd stat) d0 i) targetFile) = false) →
      ∀ fuel, depth d0 + 1 ≤ fuel →
        (searchFile (unix getwd stat) fuel startDir targetFile flagFile stopDir).map
          Outcome.result = some ("", some fileNotFound)) := by
  obtain ⟨cs, hcs, rfl⟩ := abs_rooted_form getwd startDir d0 hstart habs
  have hfix := chain_depth_fixed getwd stat cs hcs
  have hst : (unix getwd stat).Abs startDir = .ok (rootedPath cs) := hstart
  have hloop : ∀ s, ∃ o, ∀ fuel, depth (rootedPath cs) + 1 ≤ fuel →
      searchLoop (unix getwd stat) targetFile flagFile s fuel (rootedPath cs) = some o := by
    intro s
    obtain ⟨o, ho⟩ := searchLoop_finishes (unix getwd stat) targetFile flagFile s
      (depth (rootedPath cs)) (rootedPath cs) hfix
    exact ⟨o, fun fuel hfuel => searchLoop_mono _ _ _ _ _ _ o ho fuel hfuel⟩
  constructor
  · by_cases hne : stopDir = ""
    · subst hne
      obtain ⟨o, ho⟩ := hloop ""
      refine ⟨o.afterResolved [startDir], fun fuel hfuel => ?_⟩
      rw [searchFile_no_stop _ fuel startDir targetFile flagFile _ hst, ho fuel hfuel]
      rfl
    · cases hs : (unix getwd stat).Abs stopDir with
      | error e =>
        exact ⟨_, fun fuel _ =>
          searchFile_stop_error _ fuel startDir targetFile flagFile stopDir _ e hst hne hs⟩
      | ok s =>
        obtain ⟨o, ho⟩ := hloop s
        refine ⟨o.afterResolved [startDir, stopDir], fun fuel hfuel => ?_⟩
        rw [searchFile_with_stop _ fuel startDir targetFile flagFile stopDir _ s hst hne hs,
          ho fuel hfuel]
        rfl
  · intro hstop hnone fuel hfuel
    obtain ⟨s, _, heq⟩ := searchFile_result (unix getwd stat) fuel startDir targetFile flagFile
      stopDir (rootedPath cs) hst hstop
    rw [heq]
    obtain ⟨o, ho⟩ := hloop s
    rw [ho fuel hfuel]
    simp only [Option.map_some', Option.some.injEq]
    exact searchLoop_absent _ _ _ _ _ fuel o (ho fuel hfuel) hnone

/-- C5, on an example: from `/a/b/c` (depth 3) four iterations finish the search, and the
search for `x`, which exists only outside the ancestor chain, fails. -/
theorem walk_terminates_at_root_witness :
    (∃ o, ∀ fuel, 4 ≤ fuel →
      searchFile (unix (.ok "/") (fsOf ["/a/d/x"])) fuel "/a/b/c" "x" ".stop" "/q" = some o) ∧
    (searchFile (unix (.ok "/") (fsOf ["/a/d/x"])) 4 "/a/b/c" "x" ".stop" "/q").map
      Outcome.result = some ("", some fileNotFound) :=
  ⟨(walk_terminates_at_root (.ok "/") (fsOf ["/a/d/x"]) "/a/b/c" "x" ".stop" "/q" "/a/b/c"
      rfl (by decide)).1,
   (walk_terminates_at_root (.ok "/") (fsOf ["/a/d/x"]) "/a/b/c" "x" ".stop" "/q" "/a/b/c"
      rfl (by decide)).2 (Or.inr ⟨"/q", rfl⟩)
      (fun i => by
        by_cases hi : i ≤ 3
        · interval_cases i <;> decide
        · rw [chain_fixed (unix (.ok "/") (fsOf ["/a/d/x"])) "/a/b/c" 3 (by decide) i
            (by omega)]
          decide)
      4 (by decide)⟩

/-- C6, the claim as stated fails: searching `x` from `/a/b/c` when only `/a/x` exists,
the first directory of the ancestor chain that contains the target is `/a`, and the
value returned is not that directory but the path `/a/x` of the target in it. -/
theorem returns_directory_counterexample :
    chain (unix (.ok "/") (fsOf ["/a/x"])) "/a/b/c" 2 = "/a" ∧
    (unix (.ok "/") (fsOf ["/a/x"])).statOk (Join "/a" "x") = true ∧
    (∀ i, i < 2 → (unix (.ok "/") (fsOf ["/a/x"])).statOk
      (Join (chain (unix (.ok "/") (fsOf ["/a/x"])) "/a/b/c" i) "x") = false) ∧
    (searchFile (unix (.ok "/") (fsOf ["/a/x"])) 3 "/a/b/c" "x" "" "").map Outcome.result =
      some ("/a/x", none) ∧
    (searchFile (unix (.ok "/") (fsOf ["/a/x"])) 3 "/a/b/c" "x" "" "").map Outcome.result ≠
      some ("/a", none) := by
  refine ⟨by decide, by decide, by decide, by decide, by decide⟩

/-- C6, amended. On success the locator returns the absolute path of the target in the
first directory of the ancestor chain that contains it: for a start directory resolved
to the absolute path `d0`, every successful result is `Join d_k targetFile` for the
least `k` such that this path exists, and it is an absolute path. -/
theorem success_returns_target_path (getwd : Except GoError String)
    (stat : String → Option GoError) (fuel : Nat)
    (startDir targetFile flagFile stopDir d0 : String) (o : Outcome)
    (hstart : Abs getwd startDir = .ok d0) (habs : IsAbs d0 = true)
    (hrun : searchFile (unix getwd stat) fuel startDir targetFile flagFile stopDir = some o)
    (hok : o.err = none) :
    ∃ k, o.path = Join (chain (unix getwd stat) d0 k) targetFile ∧
      IsAbs o.path = true ∧
      (unix getwd stat).statOk o.path = true ∧
      ∀ i, i < k → (unix getwd stat).statOk
        (Join (chain (unix getwd stat) d0 i) targetFile) = false := by
  have hst : (unix getwd stat).Abs startDir = .ok d0 := hstart
  obtain ⟨s, k, _, _, hwalk, _, hfound, hpath⟩ :=
    searchFile_success (unix getwd stat) fuel startDir targetFile flagFile stopDir d0 o hst
      hrun hok
  obtain ⟨cs, hcs, rfl⟩ := abs_rooted_form getwd startDir d0 hstart habs
  obtain ⟨cs1, _, _, hch⟩ := chain_rootedPath getwd stat cs hcs k
  refine ⟨k, hpath, ?_, ?_, fun i hi => (hwalk i hi).2.1⟩
  · rw [hpath, hch]
    exact join_isAbs (rootedPath cs1) targetFile (isAbs_rootedPath cs1)
  · rw [hpath]; exact hfound

/-- C6 amended, on the example: the result `/a/x` is the target in the ancestor of index 2. -/
theorem success_returns_target_path_witness :
    ∃ k, ("/a/x" : String) = Join (chain (unix (.ok "/") (fsOf ["/a/x"])) "/a/b/c" k) "x" ∧
      IsAbs "/a/x" = true ∧
      (unix (.ok "/") (fsOf ["/a/x"])).statOk "/a/x" = true ∧
      ∀ i, i < k → (unix (.ok "/") (fsOf ["/a/x"])).statOk
        (Join (chain (unix (.ok "/") (fsOf ["/a/x"])) "/a/b/c" i) "x") = false :=
  success_returns_target_path (.ok "/") (fsOf ["/a/x"]) 3 "/a/b/c" "x" "" "" "/a/b/c"
    { path := "/a/x", err := none, resolved := ["/a/b/c"],
      probes := ["/a/b/c/x", "/a/b/x", "/a/x"] } rfl (by decide) (by decide) rfl

/-- C7. What `main` does with a wrong number of positional arguments: when help is not
requested and the number of positional arguments is not 1, `errorAndExit` ends the
process with status 1 (the `os.Exit(2)` that follows it is never reached), for every
filesystem, quiet or not; standard error holds the message unless quiet is set. -/
theorem wrong_arg_count_exits_one (P : Platform) (fuel : Nat) (argv0 flagUsages : String)
    (options : Options) (args : List String) (hhelp : options.help = false)
    (hargs : args.length ≠ 1) :
    main P fuel argv0 flagUsages options args =
      some (.exited 1 { stdout := "",
                        stderr := if options.quiet then ""
                                  else "ERROR: Missing target file name" }) := by
  simp only [main, hhelp, if_pos hargs, errorAndExit_eq, Run.andThen, sprintf_missing_target]
  simp

/-- C7, at an invocation without positional argument: the exit status is 1, not 2. -/
theorem wrong_arg_count_exits_one_witness :
    (main (unix (.ok "/") (fsOf [])) 0 "findup" "" ⟨"", ".", "", false, false⟩ []).map
      Run.status = some 1 :=
  congrArg (Option.map Run.status)
    (wrong_arg_count_exits_one (unix (.ok "/") (fsOf [])) 0 "findup" ""
      ⟨"", ".", "", false, false⟩ [] rfl (by decide))

/-- C8. Success output of the command line: with exactly one positional argument and no
help flag, when `searchFile` returns `(p, nil)`, standard output is `p` followed by a
newline, standard error is empty and the exit status is 0. -/
theorem success_output (P : Platform) (fuel : Nat) (argv0 flagUsages : String)
    (options : Options) (targetFile : String) (o : Outcome) (hhelp : options.help = false)
    (hrun : searchFile P fuel options.startDirectory targetFile options.flagFile
      options.stopDirectory = some o)
    (hok : o.err = none) :
    (main P fuel argv0 flagUsages options [targetFile]).map
        (fun r => (r.streams.stdout, r.streams.stderr, r.status)) =
      some (o.path ++ "\n", "", 0) := by
  simp [main, hhelp, hrun, hok, Run.andThen, printStdout, Run.streams, Run.status,
    sprintf_string_newline, empty_append]

/-- C8, on the example of the specification: `/a/x` is found from `/a/b/c`. -/
theorem success_output_witness :
    (main (unix (.ok "/") (fsOf ["/a/x"])) 3 "findup" "" ⟨"", "/a/b/c", "", false, false⟩
        ["x"]).map (fun r => (r.streams.stdout, r.streams.stderr, r.status)) =
      some ("/a/x\n", "", 0) :=
  success_output (unix (.ok "/") (fsOf ["/a/x"])) 3 "findup" "" ⟨"", "/a/b/c", "", false, false⟩
    "x" { path := "/a/x", err := none, resolved := ["/a/b/c"],
          probes := ["/a/b/c/x", "/a/b/x", "/a/x"] } rfl (by decide) rfl

/-- C9. Failure output of the command line: with exactly one positional argument and no
help flag, when `searchFile` returns an error `e`, the exit status is 1, standard output
is empty, and standard error is `ERROR: ` followed by the message of `e` and a newline,
or empty when quiet is set. -/
theorem failure_output (P : Platform) (fuel : Nat) (argv0 flagUsages : String)
    (options : Options) (targetFile : String) (o : Outcome) (e : GoError)
    (hhelp : options.help = false)
    (hrun : searchFile P fuel options.startDirectory targetFile options.flagFile
      options.stopDirectory = some o)
    (herr : o.err = some e) :
    (main P fuel argv0 flagUsages options [targetFile]).map
        (fun r => (r.streams.stdout, r.streams.stderr, r.status)) =
      some ("", if options.quiet then "" else "ERROR: " ++ e.Error ++ "\n", 1) := by
  cases hq : options.quiet <;>
    simp [main, hhelp, hrun, herr, Run.andThen, Run.streams, Run.status, errorAndExit_eq, hq,
      sprintf_error_newline, String.append_assoc]

/-- C9, on an example: nothing is found from `/a/b/c`, quiet is not set. -/
theorem failure_output_witness :
    (main (unix (.ok "/") (fsOf ["/a/x"])) 4 "findup" "" ⟨"", "/a/b/c", "", false, false⟩
        ["y"]).map (fun r => (r.streams.stdout, r.streams.stderr, r.status)) =
      some ("", "ERROR: file not found\n", 1) :=
  failure_output (unix (.ok "/") (fsOf ["/a/x"])) 4 "findup" "" ⟨"", "/a/b/c", "", false, false⟩
    "y" { path := "", err := some fileNotFound, resolved := ["/a/b/c"],
          probes := ["/a/b/c/y", "/a/b/y", "/a/y", "/y"] } fileNotFound rfl (by decide) rfl

/-- C10. Path resolution failures are fatal and come before any existence check: a failure
of `Abs startDir` is returned wrapped as a start-directory error; when `startDir`
resolves and a non-empty `stopDir` does not, the failure is returned wrapped as a
stop-directory error; both with the empty path and without any existence check. An empty
`stopDir` is never resolved (only `startDir` is passed to `Abs`) and, when `startDir`
resolves, the only error left is "file not found". -/
theorem resolution_failures_fatal (P : Platform) (startDir targetFile flagFile stopDir : String) :
    (∀ e, P.Abs startDir = .error e → ∀ fuel,
      searchFile P fuel startDir targetFile flagFile stopDir =
        some { path := "",
               err := some (.wrapError
                 ("failed to get absolute path of start directory: " ++ e.Error) e),
               resolved := [startDir], probes := [] }) ∧
    (∀ d0 e, P.Abs startDir = .ok d0 → stopDir ≠ "" → P.Abs stopDir = .error e → ∀ fuel,
      searchFile P fuel startDir targetFile flagFile stopDir =
        some { path := "",
               err := some (.wrapError
                 ("failed to get absolute path of stop directory: " ++ e.Error) e),
               resolved := [startDir, stopDir], probes := [] }) ∧
    (∀ fuel o, searchFile P fuel startDir targetFile flagFile "" = some o →
      o.resolved = [startDir]) ∧
    (∀ d0 fuel o, P.Abs startDir = .ok d0 →
      searchFile P fuel startDir targetFile flagFile "" = some o →
      o.err = none ∨ o.err = some fileNotFound) := by
  refine ⟨?_, ?_, ?_, ?_⟩
  · intro e h fuel
    exact searchFile_start_error P fuel startDir targetFile flagFile stopDir e h
  · intro d0 e h hne hs fuel
    exact searchFile_stop_error P fuel startDir targetFile flagFile stopDir d0 e h hne hs
  · intro fuel o h
    cases habs : P.Abs startDir with
    | error e =>
      rw [searchFile_start_error P fuel startDir targetFile flagFile "" e habs] at h
      cases h; rfl
    | ok d0 =>
      rw [searchFile_no_stop P fuel startDir targetFile flagFile d0 habs] at h
      obtain ⟨o1, ho1, rfl⟩ := Option.map_eq_some'.mp h
      obtain ⟨k, _, _, hend⟩ := searchLoop_cases P targetFile flagFile "" fuel d0 o1 ho1
      rcases hend with ⟨_, rfl⟩ | ⟨_, _, rfl⟩ | ⟨_, _, _, rfl⟩ <;> rfl
  · intro d0 fuel o habs h
    rw [searchFile_no_stop P fuel startDir targetFile flagFile d0 habs] at h
    obtain ⟨o1, ho1, rfl⟩ := Option.map_eq_some'.mp h
    obtain ⟨k, _, _, hend⟩ := searchLoop_cases P targetFile flagFile "" fuel d0 o1 ho1
    rcases hend with ⟨_, rfl⟩ | ⟨_, _, rfl⟩ | ⟨_, _, _, rfl⟩
    · exact Or.inr (by simp [Outcome.afterResolved, Outcome.afterProbes, notFound,
        errorf_file_not_found])
    · exact Or.inl rfl
    · exact Or.inr (by simp [Outcome.afterResolved, Outcome.afterProbes, notFound,
        errorf_file_not_found])

/-- C10, on an example: the working directory cannot be read, so the relative start
directory `.` does not resolve; with the absolute start directory `/a` the relative stop
directory `up` does not resolve. -/
theorem resolution_failures_fatal_witness :
    searchFile (unix (.error (.errorString "getwd: no such file or directory"))
        (fsOf ["/a/x"])) 0 "." "x" "" "up" =
      some { path := "",
             err := some (.wrapError
               "failed to get absolute path of start directory: getwd: no such file or directory"
               (.errorString "getwd: no such file or directory")),
             resolved := ["."], probes := [] } ∧
    searchFile (unix (.error (.errorString "getwd: no such file or directory"))
        (fsOf ["/a/x"])) 0 "/a" "x" "" "up" =
      some { path := "",
             err := some (.wrapError
               "failed to get absolute path of stop directory: getwd: no such file or directory"
               (.errorString "getwd: no such file or directory")),
             resolved := ["/a", "up"], probes := [] } :=
  ⟨(resolution_failures_fatal (unix (.error (.errorString "getwd: no such file or directory"))
      (fsOf ["/a/x"])) "." "x" "" "up").1 (.errorString "getwd: no such file or directory")
      rfl 0,
   (resolution_failures_fatal (unix (.error (.errorString "getwd: no such file or directory"))
      (fsOf ["/a/x"])) "/a" "x" "" "up").2.1 "/a" (.errorString "getwd: no such file or directory")
      rfl (by decide) rfl 0⟩

/-- C11. The stop directory and everything above it are never scanned: when `stopDir`
resolves to the ancestor `d_k` of the resolved start directory, two filesystem oracles
whose checks agree on `Join d_i targetFile` and `Join d_i flagFile` for every `i < k`
give the same outcome of `searchFile` (returned values and existence checks), which is
reached within `k + 1` iterations; and when the target exists in none of
`d_0..d_(k-1)` the result is "file not found", whatever the oracle says about the stop
directory and the directories above it. -/
theorem stop_directory_never_scanned (P : Platform) (st1 st2 : String → Option GoError)
    (startDir targetFile flagFile stopDir d0 s : String) (k : Nat)
    (hstart : P.Abs startDir = .ok d0) (hne : stopDir ≠ "") (hstop : P.Abs stopDir = .ok s)
    (habs : IsAbs s = true) (hk : chain P d0 k = s)
    (hagree : ∀ i, i < k →
      (st1 (P.Join (chain P d0 i) targetFile)).isNone =
        (st2 (P.Join (chain P d0 i) targetFile)).isNone ∧
      (st1 (P.Join (chain P d0 i) flagFile)).isNone =
        (st2 (P.Join (chain P d0 i) flagFile)).isNone) :
    (∀ fuel, searchFile (P.withStat st1) fuel startDir targetFile flagFile stopDir =
      searchFile (P.withStat st2) fuel startDir targetFile flagFile stopDir) ∧
    (∀ fuel, k < fuel →
      (searchFile (P.withStat st1) fuel startDir targetFile flagFile stopDir).isSome = true) ∧
    ((∀ i, i < k → (st1 (P.Join (chain P d0 i) targetFile)).isNone = false) →
      ∀ fuel, k < fuel →
        (searchFile (P.withStat st1) fuel startDir targetFile flagFile stopDir).map
          Outcome.result = some ("", some fileNotFound)) := by
  have hs : s ≠ "" := isAbs_ne_empty s habs
  have hk1 : chain (P.withStat st1) d0 k = s := by rw [chain_withStat]; exact hk
  have hA : (P.withStat st1).Abs startDir = .ok d0 := hstart
  have hS : (P.withStat st1).Abs stopDir = .ok s := hstop
  have hfin : ∀ fuel, k < fuel →
      ∃ o, searchLoop (P.withStat st1) targetFile flagFile s fuel d0 = some o := by
    intro fuel hfuel
    obtain ⟨o, ho⟩ := searchLoop_stops_by (P.withStat st1) targetFile flagFile s hs k d0 hk1
    exact ⟨o, searchLoop_mono _ _ _ _ _ _ o ho fuel hfuel⟩
  refine ⟨?_, ?_, ?_⟩
  · intro fuel
    apply searchFile_congr
    intro d1 s1 hd1 hs1
    have hd : d1 = d0 := by
      rw [hstart] at hd1
      cases hd1
      rfl
    have hss : s1 = s := by
      rcases hs1 with ⟨h0, _⟩ | ⟨_, h1⟩
      · exact absurd h0 hne
      · rw [hstop] at h1
        cases h1
        rfl
    subst hd
    subst hss
    apply searchLoop_congr
    intro i _ hj
    by_cases hik : i < k
    · exact hagree i hik
    · exact absurd ⟨hs, hk⟩ (hj k (by omega))
  · intro fuel hfuel
    obtain ⟨o, ho⟩ := hfin fuel hfuel
    rw [searchFile_with_stop (P.withStat st1) fuel startDir targetFile flagFile stopDir d0 s
      hA hne hS, ho]
    rfl
  · intro hnone fuel hfuel
    obtain ⟨o, ho⟩ := hfin fuel hfuel
    rw [searchFile_with_stop (P.withStat st1) fuel startDir targetFile flagFile stopDir d0 s
      hA hne hS, ho]
    simp only [Option.map_some', afterResolved_result, Option.some.injEq]
    obtain ⟨j, _, hwalk, hend⟩ :=
      searchLoop_cases (P.withStat st1) targetFile flagFile s fuel d0 o ho
    rcases hend with ⟨_, rfl⟩ | ⟨hnot, hfound, _⟩ | ⟨_, _, _, rfl⟩
    · rw [afterProbes_result, notFound_result]
    · exfalso
      have hjk : j < k := by
        rcases Nat.lt_trichotomy j k with h | h | h
        · exact h
        · subst h
          exact absurd ⟨hs, hk1⟩ hnot
        · exact absurd ⟨hs, hk1⟩ (hwalk k h).1
      have := hnone j hjk
      rw [chain_withStat] at hfound
      simp only [Platform.statOk, Platform.withStat] at hfound
      rw [this] at hfound
      exact Bool.false_ne_true hfound
    · rw [afterProbes_result, notFound_result]

/-- C11, on an example: start `/a/b/c`, stop directory `/a`; the target `/a/x` of the first
oracle lies in the stop directory, the second oracle has no file at all. -/
theorem stop_directory_never_scanned_witness :
    (fsOf ["/a/x"] "/a/x").isNone = true ∧
    searchFile ((unix (.ok "/") (fsOf [])).withStat (fsOf ["/a/x"])) 3 "/a/b/c" "x" "" "/a" =
      searchFile ((unix (.ok "/") (fsOf [])).withStat (fsOf [])) 3 "/a/b/c" "x" "" "/a" ∧
    (searchFile ((unix (.ok "/") (fsOf [])).withStat (fsOf ["/a/x"])) 3 "/a/b/c" "x" ""
      "/a").map Outcome.result = some ("", some fileNotFound) :=
  ⟨by decide,
   (stop_directory_never_scanned (unix (.ok "/") (fsOf [])) (fsOf ["/a/x"]) (fsOf [])
      "/a/b/c" "x" "" "/a" "/a/b/c" "/a" 2 rfl (by decide) rfl (by decide) (by decide)
      (by decide)).1 3,
   (stop_directory_never_scanned (unix (.ok "/") (fsOf [])) (fsOf ["/a/x"]) (fsOf [])
      "/a/b/c" "x" "" "/a" "/a/b/c" "/a" 2 rfl (by decide) rfl (by decide) (by decide)
      (by decide)).2.2 (by decide) 3 (by decide)⟩

/-- C12. The loop equals the lazy-sequence reference definition: when the start directory
resolves to the absolute path `d0` and the stop directory is absent or resolves, the
values `searchFile` returns (as soon as `depth d0 + 1` iterations are allowed) are those
of `specLocate`: the scan of the ancestor sequence `d0, Dir d0, ..., /`, cut just before
its first directory equal to the resolved stop directory. The last directory of that
sequence is the root `/`. -/
theorem loop_refines_scan (getwd : Except GoError String) (stat : String → Option GoError)
    (startDir targetFile flagFile stopDir d0 : String) (stop : Option String)
    (hstart : Abs getwd startDir = .ok d0) (habs : IsAbs d0 = true)
    (hstop : stopDir = "" ∧ stop = none ∨
      stopDir ≠ "" ∧ ∃ s, Abs getwd stopDir = .ok s ∧ stop = some s) :
    (∀ fuel, depth d0 + 1 ≤ fuel →
      (searchFile (unix getwd stat) fuel startDir targetFile flagFile stopDir).map
        Outcome.result = some (specLocate getwd stat d0 targetFile flagFile stop)) ∧
    (specAncestors (unix getwd stat) (depth d0) d0).getLast? = some "/" := by
  obtain ⟨cs, hcs, rfl⟩ := abs_rooted_form getwd startDir d0 hstart habs
  have hfix := chain_depth_fixed getwd stat cs hcs
  have hst : (unix getwd stat).Abs startDir = .ok (rootedPath cs) := hstart
  constructor
  · intro fuel hfuel
    have hloop : ∀ s, (stop = none ∧ s = "" ∨ stop = some s ∧ s ≠ "") →
        (searchLoop (unix getwd stat) targetFile flagFile s fuel (rootedPath cs)).map
          Outcome.result = some (specLocate getwd stat (rootedPath cs) targetFile flagFile
            stop) := by
      intro s hrel
      have h1 := searchLoop_eq_scan (unix getwd stat) targetFile flagFile s stop hrel
        (depth (rootedPath cs)) (rootedPath cs) hfix
      obtain ⟨o, ho, hres⟩ := Option.map_eq_some'.mp h1
      rw [searchLoop_mono _ _ _ _ _ _ o ho fuel hfuel]
      simp only [Option.map_some', hres, specLocate]
    rcases hstop with ⟨h1, h2⟩ | ⟨h1, s, h2, h3⟩
    · subst h1
      rw [searchFile_no_stop _ fuel startDir targetFile flagFile _ hst, Option.map_map]
      exact hloop "" (Or.inl ⟨h2, rfl⟩)
    · have hs : s ≠ "" := abs_ne_empty getwd stopDir s h1 h2
      have hsp : (unix getwd stat).Abs stopDir = .ok s := h2
      rw [searchFile_with_stop _ fuel startDir targetFile flagFile stopDir _ s hst h1 hsp,
        Option.map_map]
      exact hloop s (Or.inr ⟨h3, hs⟩)
  · rw [specAncestors_getLast]
    obtain ⟨cs1, _, hlen, hch⟩ := chain_rootedPath getwd stat cs hcs (depth (rootedPath cs))
    rw [depth_rootedPath cs hcs, Nat.sub_self] at hlen
    have : cs1 = [] := List.eq_nil_of_length_eq_zero hlen
    subst this
    rw [hch]
    rfl

/-- C12, on an example: start `/a/b/c`, stop directory `/a`, marker `.stop`; the ancestor
sequence is `/a/b/c, /a/b, /a, /`, it is cut to `/a/b/c, /a/b`, and `/a/b/x` is found. -/
theorem loop_refines_scan_witness :
    specAncestors (unix (.ok "/") (fsOf ["/a/b/x", "/a/x"])) (depth "/a/b/c") "/a/b/c" =
      ["/a/b/c", "/a/b", "/a", "/"] ∧
    specLocate (.ok "/") (fsOf ["/a/b/x", "/a/x"]) "/a/b/c" "x" ".stop" (some "/a") =
      ("/a/b/x", none) ∧
    (searchFile (unix (.ok "/") (fsOf ["/a/b/x", "/a/x"])) 4 "/a/b/c" "x" ".stop" "/a").map
      Outcome.result =
        some (specLocate (.ok "/") (fsOf ["/a/b/x", "/a/x"]) "/a/b/c" "x" ".stop" (some "/a")) :=
  ⟨by decide, by decide,
   (loop_refines_scan (.ok "/") (fsOf ["/a/b/x", "/a/x"]) "/a/b/c" "x" ".stop" "/a" "/a/b/c"
      (some "/a") rfl (by decide) (Or.inr ⟨by decide, "/a", rfl, rfl⟩)).1 4 (by decide)⟩

/-- C13. Probe trace shape: in every finished call of `searchFile`, no existence check is
made when the start directory does not resolve; otherwise the sequence of existence
checks is, for the first `m` directories `d_0, ..., d_(m-1)` of the ancestor chain of
the resolved start directory (in this order, at most one per iteration), the
concatenation of their blocks: one check of `Join d_i targetFile`, followed by one
check of `Join d_i flagFile` only when `flagFile` is non-empty and the target check
failed. Nothing else is checked, and the directories examined are pairwise distinct. -/
theorem probe_trace_shape (P : Platform) (fuel : Nat)
    (startDir targetFile flagFile stopDir : String) (o : Outcome)
    (hrun : searchFile P fuel startDir targetFile flagFile stopDir = some o) :
    (∀ e, P.Abs startDir = .error e → o.probes = []) ∧
    (∀ d0, P.Abs startDir = .ok d0 →
      ∃ m, m ≤ fuel ∧ o.probes = probesOfPrefix P targetFile flagFile d0 m ∧
        ∀ i j, i < j → j < m → chain P d0 i ≠ chain P d0 j) := by
  constructor
  · intro e he
    rw [searchFile_start_error P fuel startDir targetFile flagFile stopDir e he] at hrun
    cases hrun
    rfl
  · intro d0 hd0
    by_cases hne : stopDir = ""
    · subst hne
      rw [searchFile_no_stop P fuel startDir targetFile flagFile d0 hd0] at hrun
      obtain ⟨o1, ho1, rfl⟩ := Option.map_eq_some'.mp hrun
      rw [afterResolved_probes]
      exact searchLoop_trace P targetFile flagFile "" fuel d0 o1 ho1
    · cases hs : P.Abs stopDir with
      | error e =>
        rw [searchFile_stop_error P fuel startDir targetFile flagFile stopDir d0 e hd0 hne hs]
          at hrun
        cases hrun
        exact ⟨0, Nat.zero_le _, rfl, fun i j _ hj => absurd hj (Nat.not_lt_zero j)⟩
      | ok s =>
        rw [searchFile_with_stop P fuel startDir targetFile flagFile stopDir d0 s hd0 hne hs]
          at hrun
        obtain ⟨o1, ho1, rfl⟩ := Option.map_eq_some'.mp hrun
        rw [afterResolved_probes]
        exact searchLoop_trace P targetFile flagFile s fuel d0 o1 ho1

/-- C13, on an example: from `/a/b/c` with marker `.stop` present in `/a/b`, the checks are
those of the two directories `/a/b/c` and `/a/b`, target first, marker second. -/
theorem probe_trace_shape_witness :
    probesOfPrefix (unix (.ok "/") (fsOf ["/a/b/.stop", "/a/x"])) "x" ".stop" "/a/b/c" 2 =
      ["/a/b/c/x", "/a/b/c/.stop", "/a/b/x", "/a/b/.stop"] ∧
    ∃ m, m ≤ 2 ∧ ["/a/b/c/x", "/a/b/c/.stop", "/a/b/x", "/a/b/.stop"] =
        probesOfPrefix (unix (.ok "/") (fsOf ["/a/b/.stop", "/a/x"])) "x" ".stop" "/a/b/c" m ∧
      ∀ i j, i < j → j < m →
        chain (unix (.ok "/") (fsOf ["/a/b/.stop", "/a/x"])) "/a/b/c" i ≠
          chain (unix (.ok "/") (fsOf ["/a/b/.stop", "/a/x"])) "/a/b/c" j :=
  ⟨by decide,
   (probe_trace_shape (unix (.ok "/") (fsOf ["/a/b/.stop", "/a/x"])) 2 "/a/b/c" "x" ".stop" ""
      { path := "", err := some fileNotFound, resolved := ["/a/b/c"],
        probes := ["/a/b/c/x", "/a/b/c/.stop", "/a/b/x", "/a/b/.stop"] }
      (by decide)).2 "/a/b/c" rfl⟩

/-- C14. Loop invariant on the search state (`os.Getwd` returning rooted paths). When
`startDir` resolves to `d0`, `searchFile` runs its loop from `currentDir = d0` (with the
resolved stop directory `s`). Whenever the loop has not finished within `k` iterations,
so that the head of a further iteration is reached, the state there is
`currentDir = chain d0 k`: the rest of the run is the loop run from that directory
(after the existence checks of the first `k` iterations). This `currentDir` is an
absolute, cleaned path that is an ancestor-or-self of `d0`, and each of the `k`
assignments `currentDir = parentDir` made so far was made with `parentDir` different
from `currentDir` and lowered the depth by exactly one. The invariant holds when the loop
is entered and is kept by every such assignment. -/
theorem loop_invariant (getwd : Except GoError String) (stat : String → Option GoError)
    (startDir targetFile flagFile stopDir d0 : String)
    (hwd : ∀ wd, getwd = .ok wd → IsAbs wd = true)
    (hstart : Abs getwd startDir = .ok d0) :
    (∀ s, (stopDir = "" ∧ s = "" ∨ stopDir ≠ "" ∧ Abs getwd stopDir = .ok s) → ∀ fuel,
      searchFile (unix getwd stat) fuel startDir targetFile flagFile stopDir =
        (searchLoop (unix getwd stat) targetFile flagFile s fuel d0).map
          (Outcome.afterResolved (if stopDir = "" then [startDir] else [startDir, stopDir]))) ∧
    (∀ s k, searchLoop (unix getwd stat) targetFile flagFile s k d0 = none →
      (∀ n, searchLoop (unix getwd stat) targetFile flagFile s (k + n) d0 =
        (searchLoop (unix getwd stat) targetFile flagFile s n
          (chain (unix getwd stat) d0 k)).map
          (Outcome.afterProbes (walkProbes (unix getwd stat) targetFile flagFile k d0))) ∧
      LoopInv d0 (chain (unix getwd stat) d0 k) ∧
      (∀ j, j < k →
        chain (unix getwd stat) d0 (j + 1) = Dir (chain (unix getwd stat) d0 j) ∧
        Dir (chain (unix getwd stat) d0 j) ≠ chain (unix getwd stat) d0 j ∧
        depth (chain (unix getwd stat) d0 (j + 1)) + 1 =
          depth (chain (unix getwd stat) d0 j))) ∧
    LoopInv d0 d0 ∧
    (∀ d, LoopInv d0 d → Dir d ≠ d → LoopInv d0 (Dir d) ∧ depth (Dir d) + 1 = depth d) := by
  have habs : IsAbs d0 = true := abs_isAbs getwd startDir d0 hwd hstart
  have hst : (unix getwd stat).Abs startDir = .ok d0 := hstart
  obtain ⟨cs, hcs, rfl⟩ := abs_rooted_form getwd startDir d0 hstart habs
  refine ⟨?_, ?_, loopInv_rootedPath cs hcs,
    fun d hd hne => loopInv_step (rootedPath cs) d hd hne⟩
  · intro s hrel fuel
    rcases hrel with ⟨h1, h2⟩ | ⟨h1, h2⟩
    · subst h1; subst h2
      rw [searchFile_no_stop _ fuel startDir targetFile flagFile _ hst]
      simp
    · have hsp : (unix getwd stat).Abs stopDir = .ok s := h2
      rw [searchFile_with_stop _ fuel startDir targetFile flagFile stopDir _ s hst h1 hsp,
        if_neg h1]
  · intro s k hk
    have hcont := searchLoop_none_continues (unix getwd stat) targetFile flagFile s k
      (rootedPath cs) hk
    refine ⟨fun n => searchLoop_walk (unix getwd stat) targetFile flagFile s k n
      (rootedPath cs) hcont, loopInv_chain getwd stat cs hcs k, ?_⟩
    intro j hj
    have hne : Dir (chain (unix getwd stat) (rootedPath cs) j) ≠
        chain (unix getwd stat) (rootedPath cs) j := (hcont j hj).2.2.2
    exact ⟨rfl, hne, (loopInv_step (rootedPath cs) _ (loopInv_chain getwd stat cs hcs j) hne).2⟩

/-- C14, on an example: in the working directory `/a/b` the search of `x` from `c` has not
finished after two iterations; the third iteration starts with `currentDir = /a`, which
satisfies the invariant, and the two assignments lowered the depth from 3 to 2 to 1. -/
theorem loop_invariant_witness :
    searchLoop (unix (.ok "/a/b") (fsOf ["/a/x"])) "x" ".stop" "" 2 "/a/b/c" = none ∧
    chain (unix (.ok "/a/b") (fsOf ["/a/x"])) "/a/b/c" 2 = "/a" ∧
    (∀ n, searchLoop (unix (.ok "/a/b") (fsOf ["/a/x"])) "x" ".stop" "" (2 + n) "/a/b/c" =
      (searchLoop (unix (.ok "/a/b") (fsOf ["/a/x"])) "x" ".stop" "" n
        (chain (unix (.ok "/a/b") (fsOf ["/a/x"])) "/a/b/c" 2)).map
        (Outcome.afterProbes
          (walkProbes (unix (.ok "/a/b") (fsOf ["/a/x"])) "x" ".stop" 2 "/a/b/c"))) ∧
    LoopInv "/a/b/c" (chain (unix (.ok "/a/b") (fsOf ["/a/x"])) "/a/b/c" 2) ∧
    depth (chain (unix (.ok "/a/b") (fsOf ["/a/x"])) "/a/b/c" 2) + 1 =
      depth (chain (unix (.ok "/a/b") (fsOf ["/a/x"])) "/a/b/c" 1) :=
  ⟨by decide, by decide,
   ((loop_invariant (.ok "/a/b") (fsOf ["/a/x"]) "c" "x" ".stop" "" "/a/b/c"
      (fun wd h => by cases h; decide) rfl).2.1 "" 2 (by decide)).1,
   ((loop_invariant (.ok "/a/b") (fsOf ["/a/x"]) "c" "x" ".stop" "" "/a/b/c"
      (fun wd h => by cases h; decide) rfl).2.1 "" 2 (by decide)).2.1,
   (((loop_invariant (.ok "/a/b") (fsOf ["/a/x"]) "c" "x" ".stop" "" "/a/b/c"
      (fun wd h => by cases h; decide) rfl).2.1 "" 2 (by decide)).2.2 1 (by decide)).2.2⟩

/-- C15. Existence checks are lenient: with `os.Stat` modelled as returning `nil` or an
error of any kind, two filesystems whose checks succeed on the same paths (and may fail
with errors of different kinds) give the same outcome of `searchFile`; and the error of
an existence check is never returned: the only errors returned are the start-directory
resolution error, the stop-directory resolution error and "file not found". -/
theorem stat_errors_lenient (P : Platform) (st1 st2 : String → Option GoError) (fuel : Nat)
    (startDir targetFile flagFile stopDir : String)
    (hkind : ∀ p, (st1 p).isNone = (st2 p).isNone) :
    searchFile (P.withStat st1) fuel startDir targetFile flagFile stopDir =
      searchFile (P.withStat st2) fuel startDir targetFile flagFile stopDir ∧
    (∀ o, searchFile (P.withStat st1) fuel startDir targetFile flagFile stopDir = some o →
      o.err = none ∨ o.err = some fileNotFound ∨
      (∃ e, P.Abs startDir = .error e ∧ o.err = some (.wrapError
        ("failed to get absolute path of start directory: " ++ e.Error) e)) ∨
      (∃ e, stopDir ≠ "" ∧ P.Abs stopDir = .error e ∧ o.err = some (.wrapError
        ("failed to get absolute path of stop directory: " ++ e.Error) e))) := by
  constructor
  · apply searchFile_congr
    intro d0 s _ _
    apply searchLoop_congr
    intro i _ _
    exact ⟨hkind _, hkind _⟩
  · intro o ho
    exact searchFile_errors (P.withStat st1) fuel startDir targetFile flagFile stopDir o ho

/-- C15, on an example: the paths other than `/a/x` are missing in one filesystem and
unreadable in the other; both searches from `/a/b/c` find `/a/x`. -/
theorem stat_errors_lenient_witness :
    fsOf ["/a/x"] "/a/b/x" ≠ fsDenied ["/a/x"] "/a/b/x" ∧
    searchFile ((unix (.ok "/") (fsOf [])).withStat (fsOf ["/a/x"])) 3 "/a/b/c" "x" ".stop" "" =
      searchFile ((unix (.ok "/") (fsOf [])).withStat (fsDenied ["/a/x"])) 3 "/a/b/c" "x"
        ".stop" "" :=
  ⟨by decide,
   (stat_errors_lenient (unix (.ok "/") (fsOf [])) (fsOf ["/a/x"]) (fsDenied ["/a/x"]) 3
      "/a/b/c" "x" ".stop" "" (fsOf_fsDenied ["/a/x"])).1⟩

/-- C16. Soundness of a success (`os.Getwd` returning rooted paths): whenever `searchFile`
returns `(p, nil)`, the start directory resolved to some `d0` and, for some directory
`d_k` of its ancestor chain, `p = Join d_k targetFile`; `p` is non-empty and absolute,
its existence check succeeded, `d_k` is not the resolved stop directory, and in no
directory `d_i` with `i < k` does the target exist, nor the marker when `flagFile` is
non-empty. -/
theorem success_is_sound (getwd : Except GoError String) (stat : String → Option GoError)
    (fuel : Nat) (startDir targetFile flagFile stopDir : String) (o : Outcome)
    (hwd : ∀ wd, getwd = .ok wd → IsAbs wd = true)
    (hrun : searchFile (unix getwd stat) fuel startDir targetFile flagFile stopDir = some o)
    (hok : o.err = none) :
    ∃ d0 k, Abs getwd startDir = .ok d0 ∧ k < fuel ∧
      o.path = Join (chain (unix getwd stat) d0 k) targetFile ∧
      o.path ≠ "" ∧ IsAbs o.path = true ∧
      (unix getwd stat).statOk o.path = true ∧
      (∀ s, stopDir ≠ "" → Abs getwd stopDir = .ok s → chain (unix getwd stat) d0 k ≠ s) ∧
      (∀ i, i < k →
        (unix getwd stat).statOk (Join (chain (unix getwd stat) d0 i) targetFile) = false ∧
        (flagFile ≠ "" →
          (unix getwd stat).statOk (Join (chain (unix getwd stat) d0 i) flagFile) = false)) := by
  cases hA : Abs getwd startDir with
  | error e =>
    have hA1 : (unix getwd stat).Abs startDir = .error e := hA
    rw [searchFile_start_error _ fuel startDir targetFile flagFile stopDir e hA1] at hrun
    cases hrun
    simp at hok
  | ok d0 =>
    have hA1 : (unix getwd stat).Abs startDir = .ok d0 := hA
    obtain ⟨s, k, hrel, hk, hwalk, hnot, hfound, hpath⟩ :=
      searchFile_success (unix getwd stat) fuel startDir targetFile flagFile stopDir d0 o hA1
        hrun hok
    have habs : IsAbs d0 = true := abs_isAbs getwd startDir d0 hwd hA
    obtain ⟨cs, hcs, rfl⟩ := abs_rooted_form getwd startDir d0 hA habs
    obtain ⟨cs1, _, _, hch⟩ := chain_rootedPath getwd stat cs hcs k
    have hpabs : IsAbs o.path = true := by
      rw [hpath, hch]
      exact join_isAbs (rootedPath cs1) targetFile (isAbs_rootedPath cs1)
    refine ⟨rootedPath cs, k, rfl, hk, hpath, isAbs_ne_empty o.path hpabs, hpabs,
      by rw [hpath]; exact hfound, ?_, ?_⟩
    · intro s1 hne hs1 heq
      rcases hrel with ⟨h0, _⟩ | ⟨_, h1⟩
      · exact hne h0
      · have h2 : Abs getwd stopDir = .ok s := h1
        rw [hs1] at h2
        have hss : s1 = s := Except.ok.inj h2
        rw [hss] at heq hs1
        exact hnot ⟨abs_ne_empty getwd stopDir s hne hs1, heq⟩
    · intro i hi
      refine ⟨(hwalk i hi).2.1, fun hf => ?_⟩
      cases hm : (unix getwd stat).statOk
          (Join (chain (unix getwd stat) (rootedPath cs) i) flagFile) with
      | false => rfl
      | true => exact absurd ⟨hf, hm⟩ (hwalk i hi).2.2.1

/-- C16, on an example: in the working directory `/a/b` the search of `x` from `c`, with
marker `.stop` and stop directory `/`, returns `/a/x`. -/
theorem success_is_sound_witness :
    ∃ d0 k, Abs (.ok "/a/b") "c" = .ok d0 ∧ k < 3 ∧
      ("/a/x" : String) = Join (chain (unix (.ok "/a/b") (fsOf ["/a/x"])) d0 k) "x" ∧
      ("/a/x" : String) ≠ "" ∧ IsAbs "/a/x" = true ∧
      (unix (.ok "/a/b") (fsOf ["/a/x"])).statOk "/a/x" = true ∧
      (∀ s, ("/" : String) ≠ "" → Abs (.ok "/a/b") "/" = .ok s →
        chain (unix (.ok "/a/b") (fsOf ["/a/x"])) d0 k ≠ s) ∧
      (∀ i, i < k →
        (unix (.ok "/a/b") (fsOf ["/a/x"])).statOk
          (Join (chain (unix (.ok "/a/b") (fsOf ["/a/x"])) d0 i) "x") = false ∧
        ((".stop" : String) ≠ "" →
          (unix (.ok "/a/b") (fsOf ["/a/x"])).statOk
            (Join (chain (unix (.ok "/a/b") (fsOf ["/a/x"])) d0 i) ".stop") = false)) :=
  success_is_sound (.ok "/a/b") (fsOf ["/a/x"]) 3 "c" "x" ".stop" "/"
    { path := "/a/x", err := none, resolved := ["c", "/"],
      probes := ["/a/b/c/x", "/a/b/c/.stop", "/a/b/x", "/a/b/.stop", "/a/x"] }
    (fun wd h => by cases h; decide) (by decide) rfl

/-- C17. A stop directory off the ancestor chain has no effect: when `stopDir` resolves to
a path that is neither the resolved start directory nor any of its ancestors, `searchFile`
returns the same values, after the same existence checks, as with no stop directory,
for every filesystem oracle. -/
theorem off_chain_stop_has_no_effect (P : Platform) (fuel : Nat)
    (startDir targetFile flagFile stopDir d0 s : String)
    (hstart : P.Abs startDir = .ok d0) (hstop : P.Abs stopDir = .ok s)
    (hoff : ∀ i, chain P d0 i ≠ s) :
    (searchFile P fuel startDir targetFile flagFile stopDir).map Outcome.result =
      (searchFile P fuel startDir targetFile flagFile "").map Outcome.result ∧
    (searchFile P fuel startDir targetFile flagFile stopDir).map Outcome.probes =
      (searchFile P fuel startDir targetFile flagFile "").map Outcome.probes := by
  by_cases hne : stopDir = ""
  · subst hne
    exact ⟨rfl, rfl⟩
  · rw [searchFile_with_stop P fuel startDir targetFile flagFile stopDir d0 s hstart hne hstop,
      searchFile_no_stop P fuel startDir targetFile flagFile d0 hstart,
      searchLoop_off_chain P targetFile flagFile s fuel d0 hoff]
    constructor <;> cases searchLoop P targetFile flagFile "" fuel d0 <;> rfl

/-- C17, on an example: the stop directory `/a/b/d` is a sibling of the start directory
`/a/b/c`; the search finds `/a/x` as it does without stop directory. -/
theorem off_chain_stop_has_no_effect_witness :
    (searchFile (unix (.ok "/") (fsOf ["/a/x"])) 3 "/a/b/c" "x" "" "/a/b/d").map
        Outcome.result = some ("/a/x", none) ∧
    (searchFile (unix (.ok "/") (fsOf ["/a/x"])) 3 "/a/b/c" "x" "" "/a/b/d").map
        Outcome.result =
      (searchFile (unix (.ok "/") (fsOf ["/a/x"])) 3 "/a/b/c" "x" "" "").map Outcome.result :=
  ⟨by decide,
   (off_chain_stop_has_no_effect (unix (.ok "/") (fsOf ["/a/x"])) 3 "/a/b/c" "x" "" "/a/b/d"
      "/a/b/c" "/a/b/d" rfl rfl
      (fun i => by
        by_cases hi : i ≤ 3
        · interval_cases i <;> decide
        · rw [chain_fixed (unix (.ok "/") (fsOf ["/a/x"])) "/a/b/c" 3 (by decide) i (by omega)]
          decide)).1⟩

end Findup
